import Mathlib

/-!
Verification of kiro2api against its natural-language specification.

This file shallowly embeds the parts of the Go source that the claims
C1..C10 speak about:

* `utils/utf8.go`            : UTF-8 safe truncation (`TruncateUTF8`)
* `server/machine_id_handler.go` (second compilation unit, the SSE state
  manager `SSEStateManager` and its handlers)
* `server/error_mapper.go`   : the status-code error-mapping strategy chain
  and the stream-side exception strategies
* `server/common.go`         : the 429 retry loop
  (`executeCodeWhispererRequestWithRetry`)
* `auth/session_token_pool.go` : the per-session token subpool
* `converter/tools.go`       : tool_use / tool_result pairing validation

Go strings are modelled as lists of UTF-8 bytes (`List Nat`), Go byte
slices likewise; Go `int` is modelled as `Int` where the value can be
negative and as `Nat` where it is a size or a countdown.  Go maps used as
sets are modelled as duplicate-free lists (membership is all the source
reads); the Go map `index -> *BlockState` is modelled as an association
list in insertion order.  Go map iteration order is unspecified; the
embedding iterates in list order, a deterministic refinement — none of the
proved properties depend on the iteration order.
-/

/-! ## Byte-string primitives (model of Go strings / `unicode/utf8`) -/

/-- UTF-8 encoding of a unicode scalar value (model of Go's rune encoding). -/
def utf8EncodeChar (c : Nat) : List Nat :=
  if c < 0x80 then [c]
  else if c < 0x800 then [0xC0 + c / 64, 0x80 + c % 64]
  else if c < 0x10000 then [0xE0 + c / 4096, 0x80 + (c / 64) % 64, 0x80 + c % 64]
  else [0xF0 + c / 262144, 0x80 + (c / 4096) % 64, 0x80 + (c / 64) % 64, 0x80 + c % 64]

/-- The UTF-8 bytes of a Lean string literal; used to transcribe the Go
string constants appearing in the source. -/
def utf8Bytes (s : String) : List Nat :=
  (s.data.map (fun c => utf8EncodeChar c.toNat)).flatten

/-- Model of a UTF-8 continuation byte test (`b & 0xC0 == 0x80`). -/
def isCont (b : Nat) : Bool := 128 ≤ b && b < 192

/-- Model of Go `utf8.RuneStart`: `b & 0xC0 != 0x80`. -/
def runeStart (b : Nat) : Bool := !(isCont b)

/-- Model of Go `utf8.ValidString` on a byte list: every rune decodes with
the shortest form, surrogates excluded, max U+10FFFF (the standard UTF-8
byte-class table Go implements). -/
def validUtf8 : List Nat → Bool
  | [] => true
  | b :: bs =>
    if b < 0x80 then validUtf8 bs
    else if b < 0xC2 then false
    else if b ≤ 0xDF then
      match bs with
      | b1 :: bs1 => isCont b1 && validUtf8 bs1
      | [] => false
    else if b ≤ 0xEF then
      match bs with
      | b1 :: b2 :: bs2 =>
        ((if b == 0xE0 then 0xA0 else 0x80) ≤ b1 &&
         b1 ≤ (if b == 0xED then 0x9F else 0xBF)) &&
        isCont b2 && validUtf8 bs2
      | _ => false
    else if b ≤ 0xF4 then
      match bs with
      | b1 :: b2 :: b3 :: bs3 =>
        ((if b == 0xF0 then 0x90 else 0x80) ≤ b1 &&
         b1 ≤ (if b == 0xF4 then 0x8F else 0xBF)) &&
        isCont b2 && isCont b3 && validUtf8 bs3
      | _ => false
    else false

/-! ## `utils/utf8.go`: TruncateUTF8 -/

/-- Model of the search loop of `TruncateUTF8` (utils/utf8.go:25-32):
`for i := maxBytes; i > 0; i--`, returning `s[:i]` at the first `i` whose
byte starts a rune and whose prefix is valid, else the empty string. -/
def truncLoop (s : List Nat) : Nat → List Nat
  | 0 => []
  | Nat.succ k =>
    if runeStart (s.getD (k + 1) 0) && validUtf8 (s.take (k + 1)) then s.take (k + 1)
    else truncLoop s k

/-- Model of `TruncateUTF8` (utils/utf8.go:19-36).  `maxBytes` is a byte
limit, modelled as `Nat` (the Go loop runs over `i > 0` only, so the
behaviour for the non-negative ints coincides). -/
def truncateUTF8 (s : List Nat) (maxBytes : Nat) : List Nat :=
  if s.length ≤ maxBytes then s else truncLoop s maxBytes

/-! ## Byte-list helpers used by the SSE thinking-tag machinery -/

/-- Model of Go `strings.HasPrefix pat`: does `l` start with `pat`? -/
def listStartsWith : List Nat → List Nat → Bool
  | [], _ => true
  | _ :: _, [] => false
  | p :: ps, x :: xs => p == x && listStartsWith ps xs

/-- Model of Go `strings.HasSuffix`: does `l` end with `pat`? -/
def listEndsWith (l pat : List Nat) : Bool := listStartsWith pat.reverse l.reverse

/-- Model of Go `strings.Index`: byte offset of the first occurrence of
`pat` in `l`, `none` when absent. -/
def findSub : List Nat → List Nat → Option Nat
  | [], pat => if listStartsWith pat [] then some 0 else none
  | x :: t, pat =>
    if listStartsWith pat (x :: t) then some 0
    else
      match findSub t pat with
      | some k => some (k + 1)
      | none => none

/-- Model of Go `strings.Contains`. -/
def containsSub (l pat : List Nat) : Bool := (findSub l pat).isSome

/-- Model of Go `strings.TrimPrefix`. -/
def trimPrefB (l pat : List Nat) : List Nat :=
  if listStartsWith pat l then l.drop pat.length else l

/-- Helper walking down from `k` to the nearest position whose byte is not
a UTF-8 continuation byte. -/
def boundaryDown (s : List Nat) : Nat → Nat
  | 0 => 0
  | k + 1 => if isCont (s.getD (k + 1) 0) then boundaryDown s k else k + 1

/-- Modelled from the spec: `parser.FindCharBoundary` (the `parser` package
is not under src/; §9 of the spec describes it as the helper for the
thinking-marker lookahead that is never allowed to split a multi-byte
rune).  It returns the largest byte position at most `n` that falls on a
UTF-8 rune boundary of `s`. -/
def findCharBoundary (s : List Nat) (n : Nat) : Nat :=
  if s.length ≤ n then s.length else boundaryDown s n

/-! ## `server/machine_id_handler.go`: the SSE state manager -/

/-- The byte constant `thinkingStartTag = "<thinking>"`. -/
def thinkingStartBytes : List Nat := utf8Bytes "<thinking>"

/-- The byte constant `thinkingEndTag = "</thinking>"`. -/
def thinkingEndBytes : List Nat := utf8Bytes "</thinking>"

/-- The fields of an SSE event map that the state manager reads or writes
(`map[string]any` in Go).  `index` is `none` when the key is absent or not
numeric; the int/float64 distinction collapses. -/
structure EventData where
  type : String
  index : Option Int := none
  cbType : Option String := none
  cbId : Option String := none
  cbName : Option String := none
  deltaType : Option String := none
  deltaText : Option (List Nat) := none
  deltaThinking : Option (List Nat) := none
  stopReason : Option String := none
  usageInput : Option Int := none
  usageOutput : Option Int := none
  errorType : Option String := none
  deriving Repr, DecidableEq

/-- Model of `BlockState` (machine_id_handler.go:239-245); `btype` is the
Go field `Type`. -/
structure BlockState where
  index : Int
  btype : String
  started : Bool
  stopped : Bool
  toolUseID : String
  deriving Repr, DecidableEq

/-- Model of `SSEStateManager` (machine_id_handler.go:254-269).  The Go map
`activeBlocks` becomes an association list in insertion order; the string
buffer becomes a byte list. -/
structure SSEStateManager where
  messageStarted : Bool := false
  messageDeltaSent : Bool := false
  activeBlocks : List (Int × BlockState) := []
  messageEnded : Bool := false
  nextBlockIndex : Int := 0
  strictMode : Bool := false
  inThinking : Bool := false
  thinkingBuffer : List Nat := []
  thinkingBlockIndex : Int := 0
  thinkingBlockStarted : Bool := false
  textBlockStartedAfterThinking : Bool := false
  textBlockIndexAfterThinking : Int := 0
  deriving Repr, DecidableEq

/-- Result of one handler call: new state, the events handed to the sender
(in order), and whether the handler returned a non-nil error. -/
structure HRes where
  st : SSEStateManager
  out : List EventData
  err : Bool
  deriving Repr, DecidableEq

/-- Map lookup on the association list (Go `ssm.activeBlocks[index]`). -/
def lookupBlock : List (Int × BlockState) → Int → Option BlockState
  | [], _ => none
  | (j, b) :: rest, i => if j == i then some b else lookupBlock rest i

/-- Map store on the association list (Go `ssm.activeBlocks[index] = ...`). -/
def setBlock : List (Int × BlockState) → Int → BlockState → List (Int × BlockState)
  | [], i, b => [(i, b)]
  | (j, c) :: rest, i, b =>
    if j == i then (j, b) :: rest else (j, c) :: setBlock rest i b

/-- Synthesized `content_block_stop` event for index `j`. -/
def mkStopEvt (j : Int) : EventData := { type := "content_block_stop", index := some j }

/-- Synthesized thinking `content_block_start` (machine_id_handler.go:517-524). -/
def mkThinkingStartEvt (j : Int) : EventData :=
  { type := "content_block_start", index := some j, cbType := some "thinking" }

/-- Synthesized text `content_block_start` (machine_id_handler.go:581-588). -/
def mkTextStartEvt (j : Int) : EventData :=
  { type := "content_block_start", index := some j, cbType := some "text" }

/-- Synthesized `thinking_delta` event (machine_id_handler.go:546-553). -/
def mkThinkingDeltaEvt (j : Int) (content : List Nat) : EventData :=
  { type := "content_block_delta", index := some j, deltaType := some "thinking_delta",
    deltaThinking := some content }

/-- Synthesized `text_delta` event (machine_id_handler.go:596-603). -/
def mkTextDeltaEvt (j : Int) (content : List Nat) : EventData :=
  { type := "content_block_delta", index := some j, deltaType := some "text_delta",
    deltaText := some content }

/-- Auto-generated `content_block_start` for an unstarted delta index
(machine_id_handler.go:733-750). -/
def mkAutoStartEvt (j : Int) (blockType : String) : EventData :=
  if blockType == "tool_use" then
    { type := "content_block_start", index := some j, cbType := some "tool_use",
      cbId := some ("tooluse_auto_" ++ toString j), cbName := some "auto_detected" }
  else
    { type := "content_block_start", index := some j, cbType := some blockType }

/-- The `for i := 1; i < len(thinkingStartTag); i++ { HasSuffix(buffer, tag[:i]) }`
partial-tag test (machine_id_handler.go:656-661). -/
def partialTagSuffix (buf : List Nat) : Bool :=
  (List.range' 1 9).any (fun i => listEndsWith buf (thinkingStartBytes.take i))

/-- Index resolution of `handleContentBlockStart` (machine_id_handler.go:358-365):
the event index when present, else `nextBlockIndex`. -/
def resolveStartIndex (s : SSEStateManager) (e : EventData) : Int :=
  match e.index with
  | some j => j
  | none => s.nextBlockIndex

/-- The auto-close of still-open text blocks before a `tool_use` start
(machine_id_handler.go:396-419): marks each open text block stopped and
synthesizes its `content_block_stop`, in block-list order. -/
def closeOpenTextBlocks : List (Int × BlockState) → List (Int × BlockState) × List EventData
  | [] => ([], [])
  | (j, b) :: rest =>
    let r := closeOpenTextBlocks rest
    if b.btype == "text" && b.started && !b.stopped then
      ((j, { b with stopped := true }) :: r.fst, mkStopEvt j :: r.snd)
    else ((j, b) :: r.fst, r.snd)

/-- Marking every started-and-unstopped block stopped (the auto-close in
`handleMessageDelta`, machine_id_handler.go:850-865). -/
def closeAllOpenBlocks (bs : List (Int × BlockState)) : List (Int × BlockState) :=
  bs.map (fun p =>
    if p.snd.started && !p.snd.stopped then (p.fst, { p.snd with stopped := true }) else p)

/-- Model of `handleMessageStart` (machine_id_handler.go:324-336). -/
def handleMessageStart (s : SSEStateManager) (e : EventData) : HRes :=
  if s.messageStarted then ⟨s, [], s.strictMode⟩
  else ⟨{ s with messageStarted := true }, [e], false⟩

/-- Model of `handleContentBlockStart` (machine_id_handler.go:339-466). -/
def handleContentBlockStart (s : SSEStateManager) (e : EventData) : HRes :=
  if !s.messageStarted && s.strictMode then ⟨s, [], true⟩
  else if s.messageEnded then ⟨s, [], s.strictMode⟩
  else
    let index := resolveStartIndex s e
    let dup :=
      match lookupBlock s.activeBlocks index with
      | some b => b.started && !b.stopped
      | none => false
    if dup then ⟨s, [], false⟩
    else
      let blockType := e.cbType.getD "text"
      let closed :=
        if blockType == "tool_use" then closeOpenTextBlocks s.activeBlocks
        else (s.activeBlocks, [])
      let s1 :=
        if blockType == "tool_use" && s.thinkingBlockStarted then
          { s with activeBlocks := closed.fst, inThinking := false, thinkingBuffer := [],
                   thinkingBlockStarted := false, textBlockStartedAfterThinking := false,
                   textBlockIndexAfterThinking := 0 }
        else { s with activeBlocks := closed.fst }
      let toolUseID := if blockType == "tool_use" then e.cbId.getD "" else ""
      let s2 :=
        { s1 with
          activeBlocks := setBlock s1.activeBlocks index
            ⟨index, blockType, true, false, toolUseID⟩,
          nextBlockIndex :=
            if s1.nextBlockIndex ≤ index then index + 1 else s1.nextBlockIndex }
      ⟨s2, closed.snd ++ [e], false⟩

/-- Model of `handleContentBlockStop` (machine_id_handler.go:775-814). -/
def handleContentBlockStop (s : SSEStateManager) (e : EventData) : HRes :=
  match e.index with
  | none => ⟨s, [], s.strictMode⟩
  | some index =>
    match lookupBlock s.activeBlocks index with
    | none => ⟨s, [], s.strictMode⟩
    | some b =>
      if !b.started then ⟨s, [], s.strictMode⟩
      else if b.stopped then ⟨s, [], s.strictMode⟩
      else
        ⟨{ s with activeBlocks := setBlock s.activeBlocks index { b with stopped := true } },
         [e], false⟩

/-- Model of `handleMessageDelta` (machine_id_handler.go:817-871).  In
non-strict mode every open block is auto-closed before the delta is
forwarded; in strict mode the delta is forwarded without closing them
(the Go code only errors on a duplicate delta). -/
def handleMessageDelta (s : SSEStateManager) (e : EventData) : HRes :=
  if !s.messageStarted && s.strictMode then ⟨s, [], true⟩
  else if s.messageDeltaSent then ⟨s, [], s.strictMode⟩
  else
    if !s.strictMode then
      let unclosed := s.activeBlocks.filter (fun p => p.snd.started && !p.snd.stopped)
      let stops := unclosed.map (fun p => mkStopEvt p.fst)
      ⟨{ s with activeBlocks := closeAllOpenBlocks s.activeBlocks, messageDeltaSent := true },
       stops ++ [e], false⟩
    else ⟨{ s with messageDeltaSent := true }, [e], false⟩

/-- Model of `handleMessageStop` (machine_id_handler.go:874-897). -/
def handleMessageStop (s : SSEStateManager) (e : EventData) : HRes :=
  if !s.messageStarted && s.strictMode then ⟨s, [], true⟩
  else if s.messageEnded then ⟨s, [], s.strictMode⟩
  else ⟨{ s with messageEnded := true }, [e], false⟩

/-- Thinking start-tag detection of `handleContentBlockDelta`
(machine_id_handler.go:502-530): when not already inside thinking and the
buffer begins with the start tag, enter thinking, strip the tag, and (if
not yet started) open the thinking block. -/
def thinkStartPhase (s : SSEStateManager) (index : Int) : HRes :=
  if !s.inThinking && listStartsWith thinkingStartBytes s.thinkingBuffer then
    let s1 := { s with inThinking := true,
                       thinkingBuffer := s.thinkingBuffer.drop thinkingStartBytes.length }
    if !s1.thinkingBlockStarted then
      let s2 := { s1 with thinkingBlockIndex := index, thinkingBlockStarted := true }
      handleContentBlockStart s2 (mkThinkingStartEvt index)
    else ⟨s1, [], false⟩
  else ⟨s, [], false⟩

/-- The in-thinking branch of `handleContentBlockDelta`
(machine_id_handler.go:533-651): either the end tag is found — flush the
remaining thinking content, close the thinking block, and start a text
block for the tail — or stream out the rune-boundary-safe part of the
buffer as a `thinking_delta`. -/
def inThinkingPhase (s : SSEStateManager) (index : Int) : HRes :=
  match findSub s.thinkingBuffer thinkingEndBytes with
  | some endIdx =>
    let thinkingContent := s.thinkingBuffer.take endIdx
    let after0 := s.thinkingBuffer.drop (endIdx + thinkingEndBytes.length)
    let out1 :=
      if thinkingContent ≠ [] then [mkThinkingDeltaEvt s.thinkingBlockIndex thinkingContent]
      else []
    let h := handleContentBlockStop s (mkStopEvt s.thinkingBlockIndex)
    if h.err then ⟨h.st, out1 ++ h.out, true⟩
    else
      let s1 := { h.st with inThinking := false, thinkingBuffer := [] }
      let after := trimPrefB (trimPrefB after0 (utf8Bytes "\n\n")) (utf8Bytes "\n")
      if after ≠ [] then
        let s2 := { s1 with textBlockIndexAfterThinking := s1.nextBlockIndex }
        let h2 := handleContentBlockStart s2 (mkTextStartEvt s2.textBlockIndexAfterThinking)
        if h2.err then ⟨h2.st, out1 ++ h.out ++ h2.out, true⟩
        else
          let s3 := { h2.st with textBlockStartedAfterThinking := true }
          ⟨s3, out1 ++ h.out ++ h2.out ++ [mkTextDeltaEvt s3.textBlockIndexAfterThinking after],
           false⟩
      else ⟨s1, out1 ++ h.out, false⟩
  | none =>
    if 10 < s.thinkingBuffer.length then
      let safeLen := findCharBoundary s.thinkingBuffer (s.thinkingBuffer.length - 10)
      if safeLen == 0 then ⟨s, [], false⟩
      else
        let safeContent := s.thinkingBuffer.take safeLen
        let s1 := { s with thinkingBuffer := s.thinkingBuffer.drop safeLen }
        if !s1.thinkingBlockStarted then
          let s2 := { s1 with thinkingBlockIndex := index, thinkingBlockStarted := true }
          let h := handleContentBlockStart s2 (mkThinkingStartEvt index)
          if h.err then ⟨h.st, h.out, true⟩
          else ⟨h.st, h.out ++ [mkThinkingDeltaEvt h.st.thinkingBlockIndex safeContent], false⟩
        else ⟨s1, [mkThinkingDeltaEvt s1.thinkingBlockIndex safeContent], false⟩
    else ⟨s, [], false⟩

/-- The after-thinking redirection of `handleContentBlockDelta`
(machine_id_handler.go:670-714): once thinking ended, a `text_delta`
arriving on the original thinking index is redirected onto the
post-thinking text block (started on demand). -/
def postThinkingPhase (s : SSEStateManager) : HRes :=
  let step1 : HRes :=
    if !s.textBlockStartedAfterThinking then
      let s1 := { s with textBlockIndexAfterThinking := s.nextBlockIndex }
      let h := handleContentBlockStart s1 (mkTextStartEvt s1.textBlockIndexAfterThinking)
      if h.err then ⟨h.st, h.out, true⟩
      else ⟨{ h.st with textBlockStartedAfterThinking := true }, h.out, false⟩
    else ⟨s, [], false⟩
  if step1.err then step1
  else
    let s1 := step1.st
    let textContent := s1.thinkingBuffer
    let s2 := { s1 with thinkingBuffer := [] }
    if textContent ≠ [] then
      ⟨s2, step1.out ++ [mkTextDeltaEvt s2.textBlockIndexAfterThinking textContent], false⟩
    else ⟨s2, step1.out, false⟩

/-- The common tail of `handleContentBlockDelta`
(machine_id_handler.go:717-771): auto-start the block when it was never
started (type inferred from the delta type), silently drop deltas on a
stopped block, else forward the original event. -/
def deltaGeneric (s : SSEStateManager) (e : EventData) (index : Int)
    (prev : List EventData) : HRes :=
  let b0 := lookupBlock s.activeBlocks index
  let need :=
    match b0 with
    | none => true
    | some b => !b.started
  if need then
    let blockType := if e.deltaType.getD "" == "input_json_delta" then "tool_use" else "text"
    let h := handleContentBlockStart s (mkAutoStartEvt index blockType)
    if h.err then ⟨h.st, prev ++ h.out, true⟩
    else
      match lookupBlock h.st.activeBlocks index with
      | some b =>
        if b.stopped then ⟨h.st, prev ++ h.out, false⟩
        else ⟨h.st, prev ++ h.out ++ [e], false⟩
      | none => ⟨h.st, prev ++ h.out ++ [e], false⟩
  else
    match b0 with
    | some b =>
      if b.stopped then ⟨s, prev, false⟩ else ⟨s, prev ++ [e], false⟩
    | none => ⟨s, prev ++ [e], false⟩

/-- The `text_delta` branch of `handleContentBlockDelta`
(machine_id_handler.go:499-715): append to the thinking buffer, run tag
detection, and either return early (`Sum.inl`) or fall through to the
generic tail (`Sum.inr` carries the updated state and events so far). -/
def textPhase (s0 : SSEStateManager) (index : Int) (deltaText : List Nat) :
    Sum HRes (SSEStateManager × List EventData) :=
  let s := { s0 with thinkingBuffer := s0.thinkingBuffer ++ deltaText }
  let r1 := thinkStartPhase s index
  if r1.err then Sum.inl r1
  else
    let s1 := r1.st
    if s1.inThinking then
      let r2 := inThinkingPhase s1 index
      Sum.inl ⟨r2.st, r1.out ++ r2.out, r2.err⟩
    else if !s1.inThinking && !s1.thinkingBlockStarted then
      if partialTagSuffix s1.thinkingBuffer then Sum.inl ⟨s1, r1.out, false⟩
      else
        let s2 := { s1 with thinkingBuffer := [] }
        if s2.thinkingBlockStarted && !s2.inThinking && index == s2.thinkingBlockIndex then
          let r3 := postThinkingPhase s2
          Sum.inl ⟨r3.st, r1.out ++ r3.out, r3.err⟩
        else Sum.inr (s2, r1.out)
    else
      if s1.thinkingBlockStarted && !s1.inThinking && index == s1.thinkingBlockIndex then
        let r3 := postThinkingPhase s1
        Sum.inl ⟨r3.st, r1.out ++ r3.out, r3.err⟩
      else Sum.inr (s1, r1.out)

/-- Model of `handleContentBlockDelta` (machine_id_handler.go:469-772). -/
def handleContentBlockDelta (s : SSEStateManager) (e : EventData) : HRes :=
  match e.index with
  | none => ⟨s, [], s.strictMode⟩
  | some index =>
    let deltaType := e.deltaType.getD ""
    let deltaText := e.deltaText.getD []
    if deltaType == "text_delta" && deltaText ≠ [] then
      match textPhase s index deltaText with
      | Sum.inl r => r
      | Sum.inr sp => deltaGeneric sp.fst e index sp.snd
    else deltaGeneric s e index []

/-- Model of `SSEStateManager.SendEvent` (machine_id_handler.go:297-321):
dispatch on the event type; unknown types are forwarded unchanged. -/
def sendEventSSE (s : SSEStateManager) (e : EventData) : HRes :=
  if e.type == "message_start" then handleMessageStart s e
  else if e.type == "content_block_start" then handleContentBlockStart s e
  else if e.type == "content_block_delta" then handleContentBlockDelta s e
  else if e.type == "content_block_stop" then handleContentBlockStop s e
  else if e.type == "message_delta" then handleMessageDelta s e
  else if e.type == "message_stop" then handleMessageStop s e
  else ⟨s, [e], false⟩

/-- Model of `NewSSEStateManager` (machine_id_handler.go:272-277). -/
def newSSEStateManager (strict : Bool) : SSEStateManager := { strictMode := strict }

/-- Feeding a sequence of events through the manager, collecting every
event handed to the sender; handler errors are logged and skipped by the
caller (stream_processor.go:428-431), matching the Go stream loop. -/
def processEvents : SSEStateManager → List EventData → SSEStateManager × List EventData
  | s, [] => (s, [])
  | s, e :: es =>
    let h := sendEventSSE s e
    let r := processEvents h.st es
    (r.fst, h.out ++ r.snd)

/-- A produced SSE stream: the deployed manager is always constructed in
non-strict mode (stream_processor.go:76, `NewSSEStateManager(false)`). -/
def runSSE (es : List EventData) : SSEStateManager × List EventData :=
  processEvents (newSSEStateManager false) es

/-! ## The produced-stream well-formedness checker (for C1)

`sseWellFormed` scans an output event list keeping the set of indices whose
latest `content_block_start` is not yet followed by a `content_block_stop`,
and rejects a `message_delta` that is a second one or that arrives while a
started block is still open.  It is the formal reading of claim C1. -/

/-- Scanner state: the number of `message_delta` events seen and the set of
currently open block indices. -/
structure SSECheck where
  deltaCount : Nat
  openIdx : List Int
  deriving Repr, DecidableEq

/-- One scanner step; `none` signals a violation of C1. -/
def stepCheck (c : SSECheck) (e : EventData) : Option SSECheck :=
  if e.type == "content_block_start" then
    match e.index with
    | some j =>
      some { c with openIdx := if c.openIdx.contains j then c.openIdx else j :: c.openIdx }
    | none => some c
  else if e.type == "content_block_stop" then
    match e.index with
    | some j => some { c with openIdx := c.openIdx.filter (fun i => i != j) }
    | none => some c
  else if e.type == "message_delta" then
    if c.deltaCount == 0 && c.openIdx == [] then some { c with deltaCount := 1 } else none
  else some c

/-- Scanning a whole event list. -/
def scanCheck : SSECheck → List EventData → Option SSECheck
  | c, [] => some c
  | c, e :: es =>
    match stepCheck c e with
    | some c' => scanCheck c' es
    | none => none

/-- An output stream satisfies C1: at most one `message_delta`, emitted only
when every started block has been stopped. -/
def sseWellFormed (out : List EventData) : Bool := (scanCheck ⟨0, []⟩ out).isSome

/-- Whether block `i` is started and not stopped in the manager state. -/
def openAt (s : SSEStateManager) (i : Int) : Bool :=
  match lookupBlock s.activeBlocks i with
  | some b => b.started && !b.stopped
  | none => false

/-- The association list representing the Go map has duplicate-free keys. -/
def keysNodup (bs : List (Int × BlockState)) : Prop := (bs.map Prod.fst).Nodup

/-! ## `server/error_mapper.go`: stream exception strategies (C4) -/

/-- Result of `StreamExceptionMapper.HandleException`: updated manager
state, events sent, and whether the exception was handled (`true` means
the raw exception frame is not forwarded). -/
structure StreamExcRes where
  st : SSEStateManager
  out : List EventData
  handled : Bool
  deriving Repr, DecidableEq

/-- The open blocks of `GetActiveBlocks` filtered as in
`ContentLengthExceptionStrategy.Handle` (error_mapper.go:491-500), in
block-list order. -/
def getOpenIdxs (s : SSEStateManager) : List Int :=
  (s.activeBlocks.filter (fun p => p.snd.started && !p.snd.stopped)).map (fun p => p.fst)

/-- The synthesized `message_delta{stop_reason=max_tokens}` with usage
(error_mapper.go:503-513). -/
def maxTokensEvt (inTok outTok : Int) : EventData :=
  { type := "message_delta", stopReason := some "max_tokens",
    usageInput := some inTok, usageOutput := some outTok }

/-- The synthesized `message_stop` (error_mapper.go:521-523). -/
def msgStopEvt : EventData := { type := "message_stop" }

/-- The `overloaded_error` event of `ThrottlingExceptionStrategy`
(error_mapper.go:551-557). -/
def overloadedErrEvt : EventData := { type := "error", errorType := some "overloaded_error" }

/-- Sending a list of `content_block_stop` events through the manager,
ignoring errors, as the strategy's close loop does (error_mapper.go:492-500). -/
def sendStopsLoop : SSEStateManager → List Int → SSEStateManager × List EventData
  | s, [] => (s, [])
  | s, j :: js =>
    let h := sendEventSSE s (mkStopEvt j)
    let r := sendStopsLoop h.st js
    (r.fst, h.out ++ r.snd)

/-- `ContentLengthExceptionStrategy.CanHandle` (error_mapper.go:479-482). -/
def contentLengthCanHandle (excType : List Nat) : Bool :=
  excType == utf8Bytes "ContentLengthExceededException" ||
  containsSub excType (utf8Bytes "CONTENT_LENGTH_EXCEEDS")

/-- `ThrottlingExceptionStrategy.CanHandle` (error_mapper.go:540-543). -/
def throttlingCanHandle (excType : List Nat) : Bool :=
  excType == utf8Bytes "ThrottlingException" || containsSub excType (utf8Bytes "Throttling")

/-- `ContentLengthExceptionStrategy.Handle` (error_mapper.go:484-531):
close every open block, send the `max_tokens` message_delta, then
`message_stop`; a send error aborts with `handled = false`. -/
def contentLengthHandle (s : SSEStateManager) (inTok outTok : Int) : StreamExcRes :=
  let r := sendStopsLoop s (getOpenIdxs s)
  let h2 := sendEventSSE r.fst (maxTokensEvt inTok outTok)
  if h2.err then ⟨h2.st, r.snd ++ h2.out, false⟩
  else
    let h3 := sendEventSSE h2.st msgStopEvt
    if h3.err then ⟨h3.st, r.snd ++ h2.out ++ h3.out, false⟩
    else ⟨h3.st, r.snd ++ h2.out ++ h3.out, true⟩

/-- `ThrottlingExceptionStrategy.Handle` (error_mapper.go:545-566). -/
def throttlingHandle (s : SSEStateManager) : StreamExcRes :=
  let h := sendEventSSE s overloadedErrEvt
  if h.err then ⟨h.st, h.out, false⟩ else ⟨h.st, h.out, true⟩

/-- `StreamExceptionMapper.HandleException` (error_mapper.go:589-606): the
content-length strategy is consulted first, then throttling; an empty or
unmatched exception type is not handled (the raw frame is forwarded). -/
def handleStreamException (s : SSEStateManager) (excType : List Nat)
    (inTok outTok : Int) : StreamExcRes :=
  if excType == [] then ⟨s, [], false⟩
  else if contentLengthCanHandle excType then contentLengthHandle s inTok outTok
  else if throttlingCanHandle excType then throttlingHandle s
  else ⟨s, [], false⟩

/-! ## `server/error_mapper.go`: the HTTP error-mapping strategy chain (C6) -/

/-- Model of `CodeWhispererErrorBody` (error_mapper.go:25-28). -/
structure CodeWhispererErrorBody where
  message : List Nat
  reason : List Nat
  deriving Repr, DecidableEq

/-- Model of `ClaudeErrorResponse` plus the strategy's mark-failed verdict
(`MapResult`, error_mapper.go:16-22 and 349-353). -/
structure ClaudeMapResult where
  respType : String
  code : String
  message : List Nat
  stopReason : String
  httpStatus : Int
  shouldMarkTokenFail : Bool
  deriving Repr, DecidableEq

/-- The `if errorBody.Message != "" then errorBody.Message else default`
pattern each `MapError` uses; a failed unmarshal leaves the zero struct,
so the default is used. -/
def bodyMessageOr (body : Option CodeWhispererErrorBody) (deflt : List Nat) : List Nat :=
  match body with
  | some b => if b.message ≠ [] then b.message else deflt
  | none => deflt

/-- `PaymentRequiredStrategy.CanHandle`'s body predicate
(error_mapper.go:120-134); `none` models an unmarshal error. -/
def monthlyQuotaBody (body : Option CodeWhispererErrorBody) : Bool :=
  match body with
  | some b =>
    containsSub b.reason (utf8Bytes "MONTHLY_REQUEST_COUNT") ||
    containsSub b.message (utf8Bytes "monthly") ||
    containsSub b.message (utf8Bytes "quota")
  | none => false

/-- `ContentLengthExceedsStrategy.CanHandle`'s body predicate
(error_mapper.go:167-178). -/
def contentLengthBody (body : Option CodeWhispererErrorBody) : Bool :=
  match body with
  | some b => b.reason == utf8Bytes "CONTENT_LENGTH_EXCEEDS_THRESHOLD"
  | none => false

/-- Model of `ErrorMapper.MapCodeWhispererError` (error_mapper.go:332-387):
the strategy chain in registration order (content-length, 402 quota, 403,
429, 400 validation, 503, 500, default).  `raw` is the raw response body,
`body` the result of `json.Unmarshal` on it (`none` = unmarshal error). -/
def mapCodeWhispererError (statusCode : Int) (raw : List Nat)
    (body : Option CodeWhispererErrorBody) : ClaudeMapResult :=
  if statusCode == 400 && contentLengthBody body then
    { respType := "message_delta", code := "",
      message := utf8Bytes "Content length exceeds threshold, response truncated",
      stopReason := "max_tokens", httpStatus := 200, shouldMarkTokenFail := false }
  else if statusCode == 402 && monthlyQuotaBody body then
    { respType := "error", code := "rate_limited",
      message := bodyMessageOr body (utf8Bytes "月度请求配额已耗尽，请稍后重试或更换凭据"),
      stopReason := "", httpStatus := 429, shouldMarkTokenFail := true }
  else if statusCode == 403 then
    { respType := "error", code := "unauthorized",
      message := bodyMessageOr body (utf8Bytes "Token 已失效，请重试"),
      stopReason := "", httpStatus := 401, shouldMarkTokenFail := true }
  else if statusCode == 429 then
    { respType := "error", code := "rate_limited",
      message := bodyMessageOr body (utf8Bytes "请求过于频繁，请稍后重试"),
      stopReason := "", httpStatus := 429, shouldMarkTokenFail := false }
  else if statusCode == 400 then
    { respType := "error", code := "invalid_request_error",
      message := bodyMessageOr body (utf8Bytes "请求参数无效"),
      stopReason := "", httpStatus := 400, shouldMarkTokenFail := false }
  else if statusCode == 503 then
    { respType := "error", code := "overloaded_error",
      message := utf8Bytes "服务暂时不可用，请稍后重试",
      stopReason := "", httpStatus := 503, shouldMarkTokenFail := false }
  else if statusCode == 500 then
    { respType := "error", code := "api_error",
      message := bodyMessageOr body (utf8Bytes "上游服务内部错误"),
      stopReason := "", httpStatus := 500, shouldMarkTokenFail := false }
  else if statusCode != 200 then
    { respType := "error", code := "api_error",
      message := utf8Bytes "Upstream error: " ++ raw,
      stopReason := "", httpStatus := statusCode, shouldMarkTokenFail := false }
  else
    { respType := "error", code := "unknown_error", message := utf8Bytes "Unknown error",
      stopReason := "", httpStatus := statusCode, shouldMarkTokenFail := false }

/-! ## `server/common.go`: the orchestrator retry loop (C5)

`executeCodeWhispererRequestWithRetry` (common.go:145-260) is modelled as
a function of the upstream status and token key per attempt.  Token
acquisition and the HTTP transport are assumed to succeed (their failure
paths abort the loop and are outside the claim); body reading, cooldown
duration parsing and the backoff sleep are timing details without effect
on which statuses retry.  `handleCodeWhispererError` returns true for any
non-200 status, surfacing the mapped error to the client (common.go:347-384). -/

/-- Externally visible actions of one run of the retry loop, in order. -/
inductive RetryAction where
  | markCooldown (tokenKey : String)
  | markSuccess (tokenKey : String)
  | surfacedError (status : Int)
  | respondedRateLimited
  deriving Repr, DecidableEq

/-- Outcome of the loop: the action trace and the status of the response
handed back to the caller (`none` when the loop ended in an error). -/
structure RetryOutcome where
  actions : List RetryAction
  returned : Option Int
  deriving Repr, DecidableEq

/-- The loop body from attempt `attempt` with `remaining` retries left
(`remaining = maxRetries - retry`; `retry >= maxRetries` is `remaining = 0`). -/
def retryGo (status : Nat → Int) (tokenKey : Nat → String) : Nat → Nat → RetryOutcome
  | attempt, remaining =>
    if status attempt == 429 then
      match remaining with
      | 0 => ⟨[RetryAction.markCooldown (tokenKey attempt), RetryAction.respondedRateLimited],
              none⟩
      | r + 1 =>
        let rest := retryGo status tokenKey (attempt + 1) r
        ⟨RetryAction.markCooldown (tokenKey attempt) :: rest.actions, rest.returned⟩
    else if status attempt == 200 then
      ⟨[RetryAction.markSuccess (tokenKey attempt)], some (status attempt)⟩
    else ⟨[RetryAction.surfacedError (status attempt)], none⟩

/-- Model of `executeCodeWhispererRequestWithRetry` (common.go:145-260):
attempt 0 with `maxRetries` retries available. -/
def executeCWRequestWithRetry (status : Nat → Int) (tokenKey : Nat → String)
    (maxRetries : Nat) : RetryOutcome :=
  retryGo status tokenKey 0 maxRetries

/-! ## `auth/session_token_pool.go`: the per-session token subpool (C7) -/

/-- Model of `TokenPoolStatus` (session_token_pool.go:14-21). -/
inductive TokenPoolStatus where
  | available
  | cooldown
  | exhausted
  deriving Repr, DecidableEq

/-- Model of `PooledToken` (session_token_pool.go:24-33); times are `Nat`
instants (Go zero time is 0, `now.After t` is `t < now`). -/
structure PooledToken where
  tokenKey : String
  status : TokenPoolStatus := TokenPoolStatus.available
  cooldownUntil : Nat := 0
  lastUsedAt : Nat := 0
  failCount : Nat := 0
  successCount : Nat := 0
  deriving Repr, DecidableEq

/-- Model of `SessionTokenPool` (session_token_pool.go:36-44), primary plus
backups. -/
structure SessionTokenPool where
  primaryToken : Option PooledToken := none
  backupTokens : List PooledToken := []
  deriving Repr, DecidableEq

/-- The selection predicate of `GetAvailableTokenForModel`
(session_token_pool.go:171-174 and 183-186): status must be `available`
and the cooldown deadline strictly passed, the token must support the
model and not be disabled. -/
def tokenSelectable (now : Nat) (supports disabled : String → Bool) (t : PooledToken) : Bool :=
  t.status == TokenPoolStatus.available && decide (t.cooldownUntil < now) &&
  supports t.tokenKey && !disabled t.tokenKey

/-- First selectable backup (session_token_pool.go:182-191). -/
def firstSelectableBackup (now : Nat) (supports disabled : String → Bool) :
    List PooledToken → Option String
  | [] => none
  | t :: ts =>
    if tokenSelectable now supports disabled t then some t.tokenKey
    else firstSelectableBackup now supports disabled ts

/-- Model of `GetAvailableTokenForModel` (session_token_pool.go:160-197):
primary first, then backups; `none` means the pool falls through to
`TryAllocateBackupTokenForModel`, which can only append a fresh token and
never returns an existing cooled one (session_token_pool.go:277-330). -/
def getAvailableTokenForModel (now : Nat) (pool : SessionTokenPool)
    (supports disabled : String → Bool) : Option String :=
  match pool.primaryToken with
  | some p =>
    if tokenSelectable now supports disabled p then some p.tokenKey
    else firstSelectableBackup now supports disabled pool.backupTokens
  | none => firstSelectableBackup now supports disabled pool.backupTokens

/-- First selectable backup excluding the current key
(session_token_pool.go:362-371). -/
def firstSelectableBackupExcl (now : Nat) (supports disabled : String → Bool)
    (currentKey : String) : List PooledToken → Option String
  | [] => none
  | t :: ts =>
    if t.tokenKey != currentKey && tokenSelectable now supports disabled t then some t.tokenKey
    else firstSelectableBackupExcl now supports disabled currentKey ts

/-- Model of `GetNextAvailableTokenForModel` (session_token_pool.go:338-376). -/
def getNextAvailableTokenForModel (now : Nat) (pool : SessionTokenPool)
    (currentKey : String) (supports disabled : String → Bool) : Option String :=
  match pool.primaryToken with
  | some p =>
    if p.tokenKey != currentKey && tokenSelectable now supports disabled p then some p.tokenKey
    else firstSelectableBackupExcl now supports disabled currentKey pool.backupTokens
  | none => firstSelectableBackupExcl now supports disabled currentKey pool.backupTokens

/-- The cooldown mutation of one token (session_token_pool.go:212-226):
status becomes `cooldown`, the deadline `now + duration` (default when the
duration is zero), and the fail counter is bumped. -/
def cooldownToken (now duration deflt : Nat) (t : PooledToken) : PooledToken :=
  let d := if duration == 0 then deflt else duration
  { t with status := TokenPoolStatus.cooldown, cooldownUntil := now + d,
           failCount := t.failCount + 1 }

/-- Cooldown applied to the first backup with the key (the Go loop returns
at the first match, session_token_pool.go:229-240). -/
def cooldownBackups (now duration deflt : Nat) (tokenKey : String) :
    List PooledToken → List PooledToken
  | [] => []
  | t :: ts =>
    if t.tokenKey == tokenKey then cooldownToken now duration deflt t :: ts
    else t :: cooldownBackups now duration deflt tokenKey ts

/-- Model of `MarkTokenCooldown` (session_token_pool.go:200-241). -/
def markTokenCooldown (now : Nat) (pool : SessionTokenPool) (tokenKey : String)
    (duration deflt : Nat) : SessionTokenPool :=
  match pool.primaryToken with
  | some p =>
    if p.tokenKey == tokenKey then
      { pool with primaryToken := some (cooldownToken now duration deflt p) }
    else { pool with backupTokens := cooldownBackups now duration deflt tokenKey pool.backupTokens }
  | none =>
    { pool with backupTokens := cooldownBackups now duration deflt tokenKey pool.backupTokens }

/-- Model of `MarkTokenSuccess` (session_token_pool.go:244-269): bump the
success counter and reset the fail counter of the matching token; the
status and cooldown deadline are left untouched. -/
def successToken (t : PooledToken) : PooledToken :=
  { t with successCount := t.successCount + 1, failCount := 0 }

/-- `MarkTokenSuccess` over the backups (first match). -/
def successBackups (tokenKey : String) : List PooledToken → List PooledToken
  | [] => []
  | t :: ts => if t.tokenKey == tokenKey then successToken t :: ts else t :: successBackups tokenKey ts

/-- Model of `MarkTokenSuccess` (session_token_pool.go:244-269). -/
def markTokenSuccess (pool : SessionTokenPool) (tokenKey : String) : SessionTokenPool :=
  match pool.primaryToken with
  | some p =>
    if p.tokenKey == tokenKey then { pool with primaryToken := some (successToken p) }
    else { pool with backupTokens := successBackups tokenKey pool.backupTokens }
  | none => { pool with backupTokens := successBackups tokenKey pool.backupTokens }

/-! ## `converter/tools.go`: tool_use / tool_result pairing (C8) -/

/-- Model of `types.ToolUseEntry` as read by the pairing validator. -/
structure ToolUseEntry where
  toolUseId : List Nat
  name : List Nat := []
  deriving Repr, DecidableEq

/-- Model of `types.ToolResult` as read by the pairing validator; `content`
stands for the payload fields the validator passes through untouched. -/
structure ToolResult where
  toolUseId : List Nat
  content : List Nat := []
  deriving Repr, DecidableEq

/-- Model of the `history []any` entries `validateToolPairing` switches on
(tools.go:1219-1245); the pointer and value cases behave identically and
collapse; anything else is skipped (`other`). -/
inductive HistoryMessage where
  | assistant (content : List Nat) (toolUses : List ToolUseEntry)
  | user (content : List Nat) (toolResults : List ToolResult)
  | other
  deriving Repr, DecidableEq

/-- The tool uses of a history entry (empty for non-assistant entries). -/
def toolUsesOf : HistoryMessage → List ToolUseEntry
  | HistoryMessage.assistant _ tus => tus
  | _ => []

/-- Set insertion for the Go `map[string]struct` used as a set; order is
irrelevant, only membership is read. -/
def insertIdIfAbsent (acc : List (List Nat)) (id : List Nat) : List (List Nat) :=
  if acc.contains id then acc else acc ++ [id]

/-- `allToolUseIDs` (tools.go:1216-1232): every non-empty tool_use id in
the assistant history. -/
def collectToolUseIDs (history : List HistoryMessage) : List (List Nat) :=
  history.foldl
    (fun acc msg =>
      match msg with
      | HistoryMessage.assistant _ tus =>
        tus.foldl
          (fun a tu => if tu.toolUseId ≠ [] then insertIdIfAbsent a tu.toolUseId else a) acc
      | _ => acc)
    []

/-- `historyToolResultIDs` (tools.go:1217-1245): every non-empty
tool_result id already answered in the user history. -/
def collectHistoryResultIDs (history : List HistoryMessage) : List (List Nat) :=
  history.foldl
    (fun acc msg =>
      match msg with
      | HistoryMessage.user _ trs =>
        trs.foldl
          (fun a tr => if tr.toolUseId ≠ [] then insertIdIfAbsent a tr.toolUseId else a) acc
      | _ => acc)
    []

/-- The filtering loop of `validateToolPairing` (tools.go:1255-1274): keep
a result only when its id is still waiting in the unpaired set, consuming
the set entry; drop empty-id, already-paired and orphan results. -/
def filterResultsGo : List (List Nat) → List ToolResult → List ToolResult × List (List Nat)
  | unpaired, [] => ([], unpaired)
  | unpaired, r :: rest =>
    if r.toolUseId == [] then filterResultsGo unpaired rest
    else if unpaired.contains r.toolUseId then
      let rec1 := filterResultsGo (unpaired.erase r.toolUseId) rest
      (r :: rec1.fst, rec1.snd)
    else filterResultsGo unpaired rest

/-- Model of `validateToolPairing` (tools.go:1211-1277): returns the
retained results and the ids of history tool_uses left unanswered. -/
def validateToolPairing (history : List HistoryMessage) (toolResults : List ToolResult) :
    List ToolResult × List (List Nat) :=
  match toolResults with
  | [] => ([], [])
  | _ =>
    let allIDs := collectToolUseIDs history
    let histResultIDs := collectHistoryResultIDs history
    let unpaired := allIDs.filter (fun id => !histResultIDs.contains id)
    filterResultsGo unpaired toolResults

/-- Model of `removeOrphanedToolUses` (tools.go:1280-1320): strip every
tool_use whose id is in the orphan set from the assistant history. -/
def removeOrphanedToolUses (history : List HistoryMessage)
    (orphaned : List (List Nat)) : List HistoryMessage :=
  match orphaned with
  | [] => history
  | _ =>
    history.map
      (fun msg =>
        match msg with
        | HistoryMessage.assistant c tus =>
          HistoryMessage.assistant c (tus.filter (fun tu => !orphaned.contains tu.toolUseId))
        | m => m)


/-! ## Concrete upstream events used in counterexamples and witnesses -/

/-- An upstream `message_start` event. -/
def msgStartEvt : EventData := { type := "message_start" }

/-- An upstream `text_delta` carrying the given bytes. -/
def textDeltaEvt (j : Int) (bs : List Nat) : EventData :=
  { type := "content_block_delta", index := some j, deltaType := some "text_delta",
    deltaText := some bs }

/-- An upstream `tool_use` `content_block_start`. -/
def toolStartEvt (j : Int) (id : String) : EventData :=
  { type := "content_block_start", index := some j, cbType := some "tool_use", cbId := some id }

/-- An upstream `input_json_delta` event. -/
def inputJsonDeltaEvt (j : Int) : EventData :=
  { type := "content_block_delta", index := some j, deltaType := some "input_json_delta" }

/-- The coupling invariant between the manager state and the scanner
state used for C1: deployed non-strict mode, the scanner's delta count
mirrors `messageDeltaSent`, and every index the scanner believes open is
open in the manager. -/
def InvC1 (s : SSEStateManager) (c : SSECheck) : Prop :=
  s.strictMode = false ∧
  c.deltaCount = (if s.messageDeltaSent then 1 else 0) ∧
  (∀ i ∈ c.openIdx, openAt s i = true)

/-! # Theorems -/

/-! ## C9: UTF-8 safe truncation -/

lemma truncLoop_cases (s : List Nat) (i : Nat) :
    truncLoop s i = [] ∨
      ∃ j, j ≤ i ∧ truncLoop s i = s.take j ∧ validUtf8 (s.take j) = true := by
  induction i with
  | zero => left; rfl
  | succ k ih =>
    have hunf : truncLoop s (k + 1) =
        (if runeStart (s.getD (k + 1) 0) && validUtf8 (s.take (k + 1)) then s.take (k + 1)
         else truncLoop s k) := rfl
    by_cases h : (runeStart (s.getD (k + 1) 0) && validUtf8 (s.take (k + 1))) = true
    · right
      refine ⟨k + 1, le_refl _, ?_, ((Bool.and_eq_true _ _).mp h).2⟩
      rw [hunf, if_pos h]
    · have hrw : truncLoop s (k + 1) = truncLoop s k := by rw [hunf, if_neg h]
      rcases ih with h0 | ⟨j, hj, hEq, hv⟩
      · left; rw [hrw, h0]
      · right; exact ⟨j, Nat.le_succ_of_le hj, hrw ▸ hEq, hv⟩

/-- C9.  `TruncateUTF8(s, n)` returns a prefix of `s` that is valid UTF-8
and has byte length at most `n`; when `len(s) ≤ n` it returns `s`
unchanged.  Because the returned prefix of the valid string `s` is itself
valid UTF-8, the cut never splits a multi-byte rune. -/
theorem truncateUTF8_spec (s : List Nat) (n : Nat) (hv : validUtf8 s = true) :
    (∃ t, s = truncateUTF8 s n ++ t) ∧
    validUtf8 (truncateUTF8 s n) = true ∧
    (truncateUTF8 s n).length ≤ n ∧
    (s.length ≤ n → truncateUTF8 s n = s) := by
  by_cases hle : s.length ≤ n
  · have h : truncateUTF8 s n = s := by simp [truncateUTF8, hle]
    refine ⟨⟨[], by simp [h]⟩, ?_, ?_, fun _ => h⟩
    · rw [h]; exact hv
    · rw [h]; exact hle
  · have h : truncateUTF8 s n = truncLoop s n := by simp [truncateUTF8, hle]
    rcases truncLoop_cases s n with h0 | ⟨j, hj, hEq, hvj⟩
    · refine ⟨⟨s, by simp [h, h0]⟩, ?_, ?_, fun hc => absurd hc hle⟩
      · rw [h, h0]; rfl
      · simp [h, h0]
    · refine ⟨⟨s.drop j, by rw [h, hEq]; exact (List.take_append_drop j s).symm⟩, ?_, ?_,
        fun hc => absurd hc hle⟩
      · rw [h, hEq]; exact hvj
      · rw [h, hEq]
        calc (s.take j).length ≤ j := by simp [List.length_take]
          _ ≤ n := hj

/-- C9 witness: truncating the two-rune string "aé" (bytes 97, 195, 169)
to 2 bytes keeps it a valid prefix of length at most 2 and leaves shorter
strings alone. -/
theorem truncateUTF8_spec_witness :
    validUtf8 [97, 195, 169] = true ∧
    ((∃ t, [97, 195, 169] = truncateUTF8 [97, 195, 169] 2 ++ t) ∧
     validUtf8 (truncateUTF8 [97, 195, 169] 2) = true ∧
     (truncateUTF8 [97, 195, 169] 2).length ≤ 2 ∧
     ([97, 195, 169].length ≤ 2 → truncateUTF8 [97, 195, 169] 2 = [97, 195, 169])) :=
  ⟨by decide, truncateUTF8_spec [97, 195, 169] 2 (by decide)⟩

/-! ## Association-list support lemmas -/

lemma lookupBlock_setBlock_self (bs : List (Int × BlockState)) (i : Int) (b : BlockState) :
    lookupBlock (setBlock bs i b) i = some b := by
  induction bs with
  | nil => simp [setBlock, lookupBlock]
  | cons p rest ih =>
    obtain ⟨j, c⟩ := p
    by_cases h : j == i
    · simp [setBlock, h, lookupBlock]
    · simp [setBlock, h, lookupBlock, ih]

lemma lookupBlock_setBlock_ne (bs : List (Int × BlockState)) (i j : Int) (b : BlockState)
    (hne : j ≠ i) : lookupBlock (setBlock bs i b) j = lookupBlock bs j := by
  induction bs with
  | nil =>
    simp [setBlock, lookupBlock]
    intro h
    exact absurd h.symm hne
  | cons p rest ih =>
    obtain ⟨k, c⟩ := p
    by_cases h : k == i
    · have hk : k = i := by simpa using h
      subst hk
      have : ¬ (k == j) = true := by simpa using fun hkj => hne (by simpa using hkj.symm)
      simp [setBlock, lookupBlock, this]
    · simp [setBlock, h, lookupBlock, ih]

lemma closeOpenTextBlocks_snd (bs : List (Int × BlockState)) :
    (closeOpenTextBlocks bs).snd =
      (bs.filter (fun p => p.snd.btype == "text" && p.snd.started && !p.snd.stopped)).map
        (fun p => mkStopEvt p.fst) := by
  induction bs with
  | nil => rfl
  | cons p rest ih =>
    obtain ⟨j, b⟩ := p
    by_cases h : (b.btype == "text" && b.started && !b.stopped) = true
    · simp [closeOpenTextBlocks, h, List.filter, ih]
    · simp [closeOpenTextBlocks, h, List.filter, ih]

lemma closeOpenTextBlocks_lookup (bs : List (Int × BlockState)) (i : Int) :
    lookupBlock (closeOpenTextBlocks bs).fst i =
      (lookupBlock bs i).map
        (fun b =>
          if b.btype == "text" && b.started && !b.stopped then { b with stopped := true }
          else b) := by
  induction bs with
  | nil => rfl
  | cons p rest ih =>
    obtain ⟨j, b⟩ := p
    by_cases hcond : (b.btype == "text" && b.started && !b.stopped) = true
    · by_cases hj : (j == i) = true
      · simp [closeOpenTextBlocks, hcond, lookupBlock, hj]
        have hp : (b.btype = "text" ∧ b.started = true) ∧ b.stopped = false := by
          simpa using hcond
        rw [if_pos hp]
      · simp [closeOpenTextBlocks, hcond, lookupBlock, hj, ih]
    · by_cases hj : (j == i) = true
      · simp [closeOpenTextBlocks, hcond, lookupBlock, hj]
        have hp : ¬((b.btype = "text" ∧ b.started = true) ∧ b.stopped = false) := by
          simpa using hcond
        rw [if_neg hp]
      · simp [closeOpenTextBlocks, hcond, lookupBlock, hj, ih]

/-- Behaviour of `handleContentBlockStart` on a fresh (non-duplicate) start
in non-strict mode while the message has not ended: for a `tool_use` start
the open text blocks are closed first, the thinking-synthesis state is
reset when a thinking block had been started, and the block is registered
started. -/
lemma handleContentBlockStart_fresh (s : SSEStateManager) (e : EventData)
    (hstrict : s.strictMode = false) (hended : s.messageEnded = false)
    (hdup : openAt s (resolveStartIndex s e) = false) :
    (handleContentBlockStart s e).err = false ∧
    (handleContentBlockStart s e).out =
      (if e.cbType.getD "text" == "tool_use" then (closeOpenTextBlocks s.activeBlocks).snd
       else []) ++ [e] ∧
    (handleContentBlockStart s e).st.activeBlocks =
      setBlock
        (if e.cbType.getD "text" == "tool_use" then (closeOpenTextBlocks s.activeBlocks).fst
         else s.activeBlocks)
        (resolveStartIndex s e)
        ⟨resolveStartIndex s e, e.cbType.getD "text", true, false,
         if e.cbType.getD "text" == "tool_use" then e.cbId.getD "" else ""⟩ ∧
    ((e.cbType.getD "text" = "tool_use" ∧ s.thinkingBlockStarted = true) →
      ((handleContentBlockStart s e).st.inThinking = false ∧
       (handleContentBlockStart s e).st.thinkingBuffer = [] ∧
       (handleContentBlockStart s e).st.thinkingBlockStarted = false ∧
       (handleContentBlockStart s e).st.textBlockStartedAfterThinking = false ∧
       (handleContentBlockStart s e).st.textBlockIndexAfterThinking = 0)) := by
  have h1 : (!s.messageStarted && s.strictMode) = false := by simp [hstrict]
  have hdup' : (match lookupBlock s.activeBlocks (resolveStartIndex s e) with
      | some b => b.started && !b.stopped
      | none => false) = false := hdup
  unfold handleContentBlockStart
  simp only [h1, hended, Bool.false_eq_true, if_false, hdup']
  by_cases htool : (e.cbType.getD "text" == "tool_use") = true
  · by_cases hth : s.thinkingBlockStarted
    · simp [htool, hth]
    · simp [htool, hth]
  · simp [htool]
    intro h
    rw [h] at htool
    simp at htool

/-! ## C10: duplicate block starts are idempotent -/

/-- C10.  A `content_block_start` for an index whose block is already
started and not yet stopped is dropped before any mutation
(machine_id_handler.go:367-376): no event reaches the client and the
stored block state — indeed the whole manager state — is unchanged, in
strict and non-strict mode alike (the strict-mode early checks also
mutate nothing and emit nothing). -/
theorem duplicateBlockStartIsNoOp (s : SSEStateManager) (e : EventData) (b : BlockState)
    (hb : lookupBlock s.activeBlocks (resolveStartIndex s e) = some b)
    (hstarted : b.started = true) (hstopped : b.stopped = false) :
    (handleContentBlockStart s e).st = s ∧ (handleContentBlockStart s e).out = [] := by
  unfold handleContentBlockStart
  by_cases h1 : (!s.messageStarted && s.strictMode) = true
  · simp [h1]
  · by_cases h2 : s.messageEnded
    · simp [h1, h2]
    · simp [h1, h2, hb, hstarted, hstopped]

/-- C10 witness: a duplicate start of an open text block at index 0. -/
theorem duplicateBlockStartIsNoOp_witness :
    ((handleContentBlockStart
        { messageStarted := true,
          activeBlocks := [(0, ⟨0, "text", true, false, ""⟩)] }
        (mkTextStartEvt 0)).st =
      { messageStarted := true,
        activeBlocks := [(0, ⟨0, "text", true, false, ""⟩)] } ∧
     (handleContentBlockStart
        { messageStarted := true,
          activeBlocks := [(0, ⟨0, "text", true, false, ""⟩)] }
        (mkTextStartEvt 0)).out = []) :=
  duplicateBlockStartIsNoOp _ _ ⟨0, "text", true, false, ""⟩ (by decide) rfl rfl

/-! ## C2: auto-start of never-started delta indices -/

lemma mkAutoStartEvt_index (j : Int) (bt : String) : (mkAutoStartEvt j bt).index = some j := by
  unfold mkAutoStartEvt
  split <;> rfl

lemma mkAutoStartEvt_cbType (j : Int) (bt : String) : (mkAutoStartEvt j bt).cbType = some bt := by
  unfold mkAutoStartEvt
  split
  · next h => simp_all
  · rfl

/-- C2 counterexample: the event trace `message_start` followed by a
`content_block_delta(index 0, text_delta "<t")` (bytes 60, 116) reaches the
manager with index 0 never started, yet the claim's synthesized
`content_block_start` is not emitted: the whole output is just the
`message_start` — the text is withheld in the thinking tag-detection
buffer because "<t" could begin a `<thinking>` marker
(machine_id_handler.go:653-661).  This also refutes the type-inference
clause: a text_delta need not produce a `text` start (a buffer matching
`<thinking>` produces a `thinking` start instead). -/
theorem deltaAutoStart_counterexample :
    (runSSE [msgStartEvt, textDeltaEvt 0 [60, 116]]).snd = [msgStartEvt] ∧
    (textDeltaEvt 0 [60, 116]).deltaType = some "text_delta" ∧
    lookupBlock (runSSE [msgStartEvt]).fst.activeBlocks 0 = none := by decide

/-- C2 (amended).  For a `content_block_delta` on a never-started index,
while the message has not ended, whose delta is not a non-empty
`text_delta` (those are diverted into thinking-tag synthesis first), the
manager synthesizes and emits a `content_block_start` for that index —
type `tool_use` when the delta type is `input_json_delta`, `text`
otherwise (closing open text blocks first in the `tool_use` case) — and
only then forwards the delta, so the start precedes the delta the client
sees. -/
theorem deltaAutoStartsUnstartedIndex (s : SSEStateManager) (e : EventData) (j : Int)
    (hidx : e.index = some j)
    (hnostart : lookupBlock s.activeBlocks j = none)
    (hended : s.messageEnded = false)
    (hstrict : s.strictMode = false)
    (htext : ¬(e.deltaType.getD "" = "text_delta" ∧ e.deltaText.getD [] ≠ [])) :
    (handleContentBlockDelta s e).out =
      (if e.deltaType.getD "" == "input_json_delta" then (closeOpenTextBlocks s.activeBlocks).snd
       else []) ++
      [mkAutoStartEvt j
        (if e.deltaType.getD "" == "input_json_delta" then "tool_use" else "text"), e] ∧
    (handleContentBlockDelta s e).err = false ∧
    openAt (handleContentBlockDelta s e).st j = true := by
  have hcond : (e.deltaType.getD "" == "text_delta" && decide (e.deltaText.getD [] ≠ [])) = false := by
    by_cases h1 : e.deltaType.getD "" = "text_delta"
    · have h2 : e.deltaText.getD [] = [] := by
        by_contra hne
        exact htext ⟨h1, hne⟩
      simp [h1, h2]
    · simp [h1]
  set bt := (if e.deltaType.getD "" == "input_json_delta" then "tool_use" else "text") with hbt
  have hresolve : resolveStartIndex s (mkAutoStartEvt j bt) = j := by
    rw [resolveStartIndex, mkAutoStartEvt_index]
  have hfresh := handleContentBlockStart_fresh s (mkAutoStartEvt j bt) hstrict hended
    (by
      unfold openAt
      rw [hresolve, hnostart])
  rw [hresolve, mkAutoStartEvt_cbType] at hfresh
  simp only [Option.getD_some] at hfresh
  obtain ⟨herr, hout, hblocks, _⟩ := hfresh
  have hlook : lookupBlock (handleContentBlockStart s (mkAutoStartEvt j bt)).st.activeBlocks j =
      some ⟨j, bt, true, false, if bt == "tool_use" then (mkAutoStartEvt j bt).cbId.getD "" else ""⟩ := by
    rw [hblocks]
    exact lookupBlock_setBlock_self _ _ _
  have hred : handleContentBlockDelta s e = deltaGeneric s e j [] := by
    unfold handleContentBlockDelta
    rw [hidx]
    simp [hcond]
    intro h1 h2
    exact absurd ⟨h1, h2⟩ htext
  have hbtcase : (bt == "tool_use") = (e.deltaType.getD "" == "input_json_delta") := by
    rw [hbt]
    by_cases hj : (e.deltaType.getD "" == "input_json_delta") = true
    · simp [hj]
    · simp [hj]
  have hgen : deltaGeneric s e j [] =
      ⟨(handleContentBlockStart s (mkAutoStartEvt j bt)).st,
       [] ++ (handleContentBlockStart s (mkAutoStartEvt j bt)).out ++ [e], false⟩ := by
    unfold deltaGeneric
    rw [hnostart]
    simp only [← hbt, herr, hlook, Bool.false_eq_true, if_false]
    simp
  rw [hred, hgen]
  refine ⟨?_, rfl, ?_⟩
  · rw [hout]
    simp [hbtcase]
  · unfold openAt
    simp [hlook]

/-- C2 witness: an `input_json_delta` for never-started index 1 gets a
synthesized `tool_use` start before the delta. -/
theorem deltaAutoStartsUnstartedIndex_witness :
    ((handleContentBlockDelta { messageStarted := true } (inputJsonDeltaEvt 1)).out =
      (if (inputJsonDeltaEvt 1).deltaType.getD "" == "input_json_delta"
       then (closeOpenTextBlocks ({ messageStarted := true } : SSEStateManager).activeBlocks).snd
       else []) ++
      [mkAutoStartEvt 1
        (if (inputJsonDeltaEvt 1).deltaType.getD "" == "input_json_delta" then "tool_use"
         else "text"),
       inputJsonDeltaEvt 1] ∧
     (handleContentBlockDelta { messageStarted := true } (inputJsonDeltaEvt 1)).err = false ∧
     openAt (handleContentBlockDelta { messageStarted := true } (inputJsonDeltaEvt 1)).st 1 =
       true) :=
  deltaAutoStartsUnstartedIndex { messageStarted := true } (inputJsonDeltaEvt 1) 1
    rfl rfl rfl rfl (by decide)

/-! ## C3: tool_use starts close open text blocks -/

/-- C3 counterexample: in the trace `message_start`, `content_block_start
(0, text)`, `content_block_delta(0, text_delta "hi<")` (bytes 104 105 60),
`content_block_start(1, tool_use)`, the tool_use start is processed — it
auto-closes text block 0 (the emitted `content_block_stop`) and starts
block 1 — yet the thinking-synthesis state is NOT reset: the tag-detection
buffer still holds "hi<" afterwards, because the reset only happens when a
thinking block had been started (machine_id_handler.go:424-435). -/
theorem toolUseStartReset_counterexample :
    (runSSE [msgStartEvt, mkTextStartEvt 0, textDeltaEvt 0 [104, 105, 60],
        toolStartEvt 1 "t1"]).fst.thinkingBuffer = [104, 105, 60] ∧
    (runSSE [msgStartEvt, mkTextStartEvt 0, textDeltaEvt 0 [104, 105, 60],
        toolStartEvt 1 "t1"]).snd.map (fun ev => ev.type) =
      ["message_start", "content_block_start", "content_block_stop",
       "content_block_start"] := by
  decide

/-- C3 (amended).  When a non-duplicate `content_block_start` of type
`tool_use` is processed while the message has not ended (non-strict mode,
as deployed), every started-and-unstopped text block is closed first: a
`content_block_stop` per open text block is emitted before the tool_use
start event, those blocks are marked stopped, and — when a thinking block
had been started — the thinking-synthesis state is reset (when no thinking
block was started, the tag-detection buffer survives, see the
counterexample). -/
theorem toolUseStartClosesTextBlocks (s : SSEStateManager) (e : EventData)
    (htool : e.cbType = some "tool_use")
    (hended : s.messageEnded = false)
    (hstrict : s.strictMode = false)
    (hopen : openAt s (resolveStartIndex s e) = false) :
    (handleContentBlockStart s e).out =
      ((s.activeBlocks.filter
          (fun p => p.snd.btype == "text" && p.snd.started && !p.snd.stopped)).map
        (fun p => mkStopEvt p.fst)) ++ [e] ∧
    (handleContentBlockStart s e).err = false ∧
    (∀ i, i ≠ resolveStartIndex s e → ∀ b, lookupBlock s.activeBlocks i = some b →
      b.btype = "text" → openAt (handleContentBlockStart s e).st i = false) ∧
    (s.thinkingBlockStarted = true →
      ((handleContentBlockStart s e).st.inThinking = false ∧
       (handleContentBlockStart s e).st.thinkingBuffer = [] ∧
       (handleContentBlockStart s e).st.thinkingBlockStarted = false ∧
       (handleContentBlockStart s e).st.textBlockStartedAfterThinking = false ∧
       (handleContentBlockStart s e).st.textBlockIndexAfterThinking = 0)) := by
  have hg : e.cbType.getD "text" = "tool_use" := by rw [htool]; rfl
  obtain ⟨herr, hout, hblocks, hreset⟩ :=
    handleContentBlockStart_fresh s e hstrict hended hopen
  rw [hg] at hout hblocks hreset
  simp only [beq_self_eq_true, if_pos] at hout hblocks
  refine ⟨?_, herr, ?_, fun hth => hreset ⟨rfl, hth⟩⟩
  · rw [hout, closeOpenTextBlocks_snd]
  · intro i hne b hb hbtext
    unfold openAt
    rw [hblocks, lookupBlock_setBlock_ne _ _ _ _ hne, closeOpenTextBlocks_lookup, hb]
    by_cases hopenb : (b.started && !b.stopped) = true
    · have hp : (b.btype = "text" ∧ b.started = true) ∧ b.stopped = false := by
        have := (Bool.and_eq_true _ _).mp hopenb
        exact ⟨⟨hbtext, this.1⟩, by simpa using this.2⟩
      simp [hp]
    · have hc : ¬ ((b.btype = "text" ∧ b.started = true) ∧ b.stopped = false) := by
        intro hand
        exact hopenb (by simp [hand.1.2, hand.2])
      simp [hc]
      intro h1
      cases h2 : b.stopped with
      | true => rfl
      | false => exact absurd (by simp [h1, h2]) hopenb

/-- C3 witness: a tool_use start at index 1 with an open text block at
index 0 and a started thinking block: the text block is closed and the
thinking state reset. -/
theorem toolUseStartClosesTextBlocks_witness :
    openAt (handleContentBlockStart
        { messageStarted := true, activeBlocks := [(0, ⟨0, "text", true, false, ""⟩)],
          nextBlockIndex := 1, thinkingBlockStarted := true }
        (toolStartEvt 1 "t1")).st 0 = false ∧
    (handleContentBlockStart
        { messageStarted := true, activeBlocks := [(0, ⟨0, "text", true, false, ""⟩)],
          nextBlockIndex := 1, thinkingBlockStarted := true }
        (toolStartEvt 1 "t1")).st.thinkingBuffer = [] := by
  obtain ⟨h1, h2, h3, h4⟩ := toolUseStartClosesTextBlocks
      { messageStarted := true, activeBlocks := [(0, ⟨0, "text", true, false, ""⟩)],
        nextBlockIndex := 1, thinkingBlockStarted := true }
      (toolStartEvt 1 "t1") rfl rfl rfl (by decide)
  exact ⟨h3 0 (by decide) ⟨0, "text", true, false, ""⟩ (by decide) rfl, (h4 rfl).2.1⟩

/-! ## C7: cooldown wake-up (code bug) -/

/-- C7 (code bug).  The claim — backed by the spec's state diagram
`cooldown --wake(now >= until)--> available` — says a token marked into
cooldown becomes selectable again once `now` reaches `cooldown_until`.
The code never transitions `Status` back to `TokenStatusAvailable`:
`MarkTokenCooldown` sets `Status = TokenStatusCooldown`
(session_token_pool.go:219, 231) and both selectors require
`Status == TokenStatusAvailable` as well as the expired deadline
(session_token_pool.go:171-174, 183-186, 352-355, 363-367), so the
deadline check is dead logic and a cooled token stays unselectable
forever.  Here: primary "tok-a" cooled at time 0 for 5 units is still not
returned at time 10, although 10 exceeds the stored deadline 5. -/
theorem cooldownTokenNeverWakes :
    getAvailableTokenForModel 10
        (markTokenCooldown 0 { primaryToken := some { tokenKey := "tok-a" } } "tok-a" 5 60)
        (fun _ => true) (fun _ => false) = none ∧
    getNextAvailableTokenForModel 10
        (markTokenCooldown 0 { primaryToken := some { tokenKey := "tok-a" } } "tok-a" 5 60)
        "tok-other" (fun _ => true) (fun _ => false) = none ∧
    ((markTokenCooldown 0 { primaryToken := some { tokenKey := "tok-a" } } "tok-a" 5
        60).primaryToken.map (fun t => t.cooldownUntil)) = some 5 ∧
    ((markTokenCooldown 0 { primaryToken := some { tokenKey := "tok-a" } } "tok-a" 5
        60).primaryToken.map (fun t => t.status)) = some TokenPoolStatus.cooldown := by
  decide

/-! ## C5: which upstream statuses the retry loop treats as transient -/

/-- C5 counterexample: a pool whose upstream answers 503 on the first
attempt.  The claim says 503 is transient — cooldown, token switch, retry,
never surfacing.  The orchestrator's loop retries only on 429
(common.go:210); any other non-200 status is mapped and surfaced to the
client immediately (common.go:242-245), with no cooldown and no
`MarkTokenSuccess`. -/
theorem retryLoop503_counterexample :
    executeCWRequestWithRetry (fun _ => 503) (fun _ => "tok-a") 3 =
      ⟨[RetryAction.surfacedError 503], none⟩ := by decide

lemma retryGo_all429 (status : Nat → Int) (tokenKey : Nat → String) :
    ∀ (remaining attempt : Nat),
      (∀ m, attempt ≤ m → m ≤ attempt + remaining → status m = 429) →
      retryGo status tokenKey attempt remaining =
        ⟨(List.range' attempt (remaining + 1)).map
            (fun m => RetryAction.markCooldown (tokenKey m)) ++
          [RetryAction.respondedRateLimited], none⟩ := by
  intro remaining
  induction remaining with
  | zero =>
    intro attempt h
    have h429 : status attempt = 429 := h attempt (le_refl _) (by omega)
    unfold retryGo
    simp [h429, List.range'_succ]
  | succ r ih =>
    intro attempt h
    have h429 : status attempt = 429 := h attempt (le_refl _) (by omega)
    have hrest := ih (attempt + 1) (fun m hm1 hm2 => h m (by omega) (by omega))
    unfold retryGo
    simp only [h429]
    rw [List.range'_succ]
    simp [hrest]

lemma retryGo_first_non429 (status : Nat → Int) (tokenKey : Nat → String) :
    ∀ (k attempt remaining : Nat), k ≤ remaining →
      (∀ m, attempt ≤ m → m < attempt + k → status m = 429) →
      status (attempt + k) ≠ 429 →
      retryGo status tokenKey attempt remaining =
        ⟨(List.range' attempt k).map (fun m => RetryAction.markCooldown (tokenKey m)) ++
          (if status (attempt + k) = 200 then [RetryAction.markSuccess (tokenKey (attempt + k))]
           else [RetryAction.surfacedError (status (attempt + k))]),
         if status (attempt + k) = 200 then some 200 else none⟩ := by
  intro k
  induction k with
  | zero =>
    intro attempt remaining _ _ hne
    have hne' : (status attempt == 429) = false := by
      simp only [Nat.add_zero] at hne
      simp [hne]
    unfold retryGo
    simp only [hne', Bool.false_eq_true, if_false]
    by_cases h200 : status attempt = 200
    · simp [h200]
    · have h200' : (status attempt == 200) = false := by simp [h200]
      simp only [h200', Bool.false_eq_true, if_false]
      simp [h200]
  | succ kk ih =>
    intro attempt remaining hk h429s hne
    have h429 : status attempt = 429 := h429s attempt (le_refl _) (by omega)
    obtain ⟨r, hr⟩ : ∃ r, remaining = r + 1 := ⟨remaining - 1, by omega⟩
    subst hr
    have hrest := ih (attempt + 1) r (by omega)
      (fun m hm1 hm2 => h429s m (by omega) (by omega))
      (by rw [show attempt + 1 + kk = attempt + (kk + 1) by omega]; exact hne)
    have hradd : attempt + 1 + kk = attempt + (kk + 1) := by omega
    unfold retryGo
    rw [h429]
    simp [hrest, hradd, List.range'_succ]

/-- C5 (amended).  In `executeCodeWhispererRequestWithRetry` only status
429 is treated as transient: each 429 puts the current credential into
cooldown and the loop switches token and retries; when every attempt up to
`max_retries` returns 429, a `rate_limited` error surfaces.  A 200 ends
the loop with the credential marked success and the response handed back.
Any other status ends the loop at once with the mapped error surfaced to
the client — no cooldown, no retry and no success mark (in particular
502/503/504 are NOT retried, and a non-200 terminal status does not mark
the credential success). -/
theorem retryLoopOnlyRetries429 (status : Nat → Int) (tokenKey : Nat → String)
    (maxRetries : Nat) :
    (∀ n, n ≤ maxRetries → (∀ m, m < n → status m = 429) → status n ≠ 429 →
      executeCWRequestWithRetry status tokenKey maxRetries =
        ⟨(List.range n).map (fun m => RetryAction.markCooldown (tokenKey m)) ++
          (if status n = 200 then [RetryAction.markSuccess (tokenKey n)]
           else [RetryAction.surfacedError (status n)]),
         if status n = 200 then some 200 else none⟩) ∧
    ((∀ m, m ≤ maxRetries → status m = 429) →
      executeCWRequestWithRetry status tokenKey maxRetries =
        ⟨(List.range (maxRetries + 1)).map (fun m => RetryAction.markCooldown (tokenKey m)) ++
          [RetryAction.respondedRateLimited], none⟩) := by
  constructor
  · intro n hn h429s hne
    have := retryGo_first_non429 status tokenKey n 0 maxRetries hn
      (fun m hm1 hm2 => h429s m (by omega)) (by simpa using hne)
    simpa [executeCWRequestWithRetry, List.range_eq_range'] using this
  · intro h429s
    have := retryGo_all429 status tokenKey maxRetries 0 (fun m hm1 hm2 => h429s m (by omega))
    simpa [executeCWRequestWithRetry, List.range_eq_range'] using this

/-- C5 witness: upstream answers 429 on attempt 0 and 200 on attempt 1
(with one retry available): the first credential is cooled, the second is
marked success and its 200 response handed back. -/
theorem retryLoopOnlyRetries429_witness :
    executeCWRequestWithRetry (fun m => if m = 0 then 429 else 200) (fun m => toString m) 1 =
      ⟨(List.range 1).map (fun m => RetryAction.markCooldown (toString m)) ++
        (if (if (1 : Nat) = 0 then (429 : Int) else 200) = 200 then
          [RetryAction.markSuccess (toString (1 : Nat))]
         else [RetryAction.surfacedError (if (1 : Nat) = 0 then 429 else 200)]),
       if (if (1 : Nat) = 0 then (429 : Int) else 200) = 200 then some 200 else none⟩ :=
  (retryLoopOnlyRetries429 (fun m => if m = 0 then 429 else 200) (fun m => toString m) 1).1
    1 (by decide) (fun m hm => by interval_cases m; decide) (by decide)

/-! ## C6: when the error mapper marks the credential failed -/

/-- C6.  For every upstream response, the mapper marks the credential
failed exactly when the status is 403 (mapped to client HTTP 401, code
`unauthorized`) or the status is 402 with a parsed body whose reason
contains `MONTHLY_REQUEST_COUNT` or message contains `monthly` or `quota`
(mapped to client HTTP 429, code `rate_limited`); an upstream 429 maps to
client HTTP 429 `rate_limited` without marking the credential failed. -/
theorem errorMapperMarkFailedPolicy (statusCode : Int) (raw : List Nat)
    (body : Option CodeWhispererErrorBody) :
    ((mapCodeWhispererError statusCode raw body).shouldMarkTokenFail = true ↔
      (statusCode = 403 ∨ (statusCode = 402 ∧ monthlyQuotaBody body = true))) ∧
    (statusCode = 403 →
      (mapCodeWhispererError statusCode raw body).httpStatus = 401 ∧
      (mapCodeWhispererError statusCode raw body).code = "unauthorized") ∧
    ((statusCode = 402 ∧ monthlyQuotaBody body = true) →
      (mapCodeWhispererError statusCode raw body).httpStatus = 429 ∧
      (mapCodeWhispererError statusCode raw body).code = "rate_limited") ∧
    (statusCode = 429 →
      (mapCodeWhispererError statusCode raw body).httpStatus = 429 ∧
      (mapCodeWhispererError statusCode raw body).code = "rate_limited" ∧
      (mapCodeWhispererError statusCode raw body).shouldMarkTokenFail = false) := by
  unfold mapCodeWhispererError
  split_ifs with h1 h2 h3 h4 h5 h6 h7 h8 <;> simp_all

/-- C6 witness: a 403 with an unparsable body marks the credential failed
and maps to 401 `unauthorized`. -/
theorem errorMapperMarkFailedPolicy_witness :
    (mapCodeWhispererError 403 [] none).shouldMarkTokenFail = true ∧
    (mapCodeWhispererError 403 [] none).httpStatus = 401 ∧
    (mapCodeWhispererError 403 [] none).code = "unauthorized" := by
  obtain ⟨hiff, h403, _, _⟩ := errorMapperMarkFailedPolicy 403 [] none
  exact ⟨hiff.mpr (Or.inl rfl), (h403 rfl).1, (h403 rfl).2⟩

/-! ## C8: tool_use / tool_result pairing -/

lemma insertIdIfAbsent_nodup {acc : List (List Nat)} {id : List Nat} (h : acc.Nodup) :
    (insertIdIfAbsent acc id).Nodup := by
  unfold insertIdIfAbsent
  split
  · exact h
  · next hcon =>
    have : id ∉ acc := by
      intro hmem
      exact hcon (List.elem_iff.mpr hmem)
    simp [List.nodup_append, h, this]

lemma mem_insertIdIfAbsent_of_mem {acc : List (List Nat)} {id x : List Nat} (h : x ∈ acc) :
    x ∈ insertIdIfAbsent acc id := by
  unfold insertIdIfAbsent
  split
  · exact h
  · exact List.mem_append_left _ h

lemma mem_insertIdIfAbsent_self (acc : List (List Nat)) (id : List Nat) :
    id ∈ insertIdIfAbsent acc id := by
  unfold insertIdIfAbsent
  split
  · next hcon => exact List.elem_iff.mp hcon
  · exact List.mem_append_right _ (List.mem_singleton.mpr rfl)

lemma foldl_ids_nodup {α : Type} (g : List (List Nat) → α → List (List Nat))
    (hg : ∀ acc a, acc.Nodup → (g acc a).Nodup) :
    ∀ (xs : List α) (acc : List (List Nat)), acc.Nodup → (xs.foldl g acc).Nodup := by
  intro xs
  induction xs with
  | nil => intro acc h; exact h
  | cons a rest ih => intro acc h; exact ih (g acc a) (hg acc a h)

lemma foldl_ids_mono {α : Type} (g : List (List Nat) → α → List (List Nat))
    (hg : ∀ acc a x, x ∈ acc → x ∈ g acc a) :
    ∀ (xs : List α) (acc : List (List Nat)) (x : List Nat), x ∈ acc → x ∈ xs.foldl g acc := by
  intro xs
  induction xs with
  | nil => intro acc x h; exact h
  | cons a rest ih => intro acc x h; exact ih (g acc a) x (hg acc a x h)

lemma foldl_ids_reaches {α : Type} (g : List (List Nat) → α → List (List Nat))
    (hg : ∀ acc a x, x ∈ acc → x ∈ g acc a) (x : List Nat) :
    ∀ (xs : List α) (acc : List (List Nat)) (a : α), a ∈ xs → (∀ acc', x ∈ g acc' a) →
      x ∈ xs.foldl g acc := by
  intro xs
  induction xs with
  | nil => intro acc a ha; exact absurd ha (List.not_mem_nil a)
  | cons b rest ih =>
    intro acc a ha hstep
    rcases List.mem_cons.mp ha with hhd | htl
    · subst hhd
      exact foldl_ids_mono g hg rest (g acc a) x (hstep acc)
    · exact ih (g acc b) a htl hstep

lemma collectToolUseIDs_nodup (history : List HistoryMessage) :
    (collectToolUseIDs history).Nodup := by
  unfold collectToolUseIDs
  apply foldl_ids_nodup _ _ history [] List.nodup_nil
  intro acc msg h
  cases msg with
  | assistant c tus =>
    apply foldl_ids_nodup _ _ tus acc h
    intro acc' tu h'
    by_cases hne : tu.toolUseId ≠ []
    · rw [if_pos hne]
      exact insertIdIfAbsent_nodup h'
    · rw [if_neg hne]
      exact h'
  | user c trs => exact h
  | other => exact h

lemma mem_collectToolUseIDs (history : List HistoryMessage) (c : List Nat)
    (tus : List ToolUseEntry) (tu : ToolUseEntry)
    (hmsg : HistoryMessage.assistant c tus ∈ history) (htu : tu ∈ tus)
    (hne : tu.toolUseId ≠ []) :
    tu.toolUseId ∈ collectToolUseIDs history := by
  unfold collectToolUseIDs
  refine foldl_ids_reaches _ ?_ tu.toolUseId history [] (HistoryMessage.assistant c tus) hmsg ?_
  · intro acc msg x hx
    cases msg with
    | assistant c0 tus0 =>
      refine foldl_ids_mono _ ?_ tus0 acc x hx
      intro acc' tu0 y hy
      by_cases hne0 : tu0.toolUseId ≠ []
      · rw [if_pos hne0]
        exact mem_insertIdIfAbsent_of_mem hy
      · rw [if_neg hne0]
        exact hy
    | user c0 trs0 => exact hx
    | other => exact hx
  · intro acc'
    refine foldl_ids_reaches _ ?_ tu.toolUseId tus acc' tu htu ?_
    · intro acc'' tu0 y hy
      by_cases hne0 : tu0.toolUseId ≠ []
      · rw [if_pos hne0]
        exact mem_insertIdIfAbsent_of_mem hy
      · rw [if_neg hne0]
        exact hy
    · intro acc''
      rw [if_pos hne]
      exact mem_insertIdIfAbsent_self acc'' tu.toolUseId

lemma filterResultsGo_spec :
    ∀ (rs : List ToolResult) (u : List (List Nat)), u.Nodup →
      (filterResultsGo u rs).fst.Sublist rs ∧
      (∀ r ∈ (filterResultsGo u rs).fst, r.toolUseId ≠ [] ∧ r.toolUseId ∈ u) ∧
      ((filterResultsGo u rs).fst.map (fun r => r.toolUseId)).Nodup ∧
      (∀ id, id ∈ (filterResultsGo u rs).snd ↔
        (id ∈ u ∧ id ∉ (filterResultsGo u rs).fst.map (fun r => r.toolUseId))) := by
  intro rs
  induction rs with
  | nil =>
    intro u hu
    refine ⟨List.Sublist.refl _, ?_, List.nodup_nil, ?_⟩
    · intro r hr
      exact absurd hr (List.not_mem_nil r)
    · intro id
      simp [filterResultsGo]
  | cons r rest ih =>
    intro u hu
    by_cases hempty : (r.toolUseId == []) = true
    · have hred : filterResultsGo u (r :: rest) = filterResultsGo u rest := by
        simp [filterResultsGo, hempty]
      obtain ⟨hsub, hmem, hnd, hiff⟩ := ih u hu
      rw [hred]
      exact ⟨hsub.cons r, hmem, hnd, hiff⟩
    · by_cases hin : u.contains r.toolUseId = true
      · have hred : filterResultsGo u (r :: rest) =
            ((r :: (filterResultsGo (u.erase r.toolUseId) rest).fst),
             (filterResultsGo (u.erase r.toolUseId) rest).snd) := by
          simp [filterResultsGo, hempty, hin]
          intro hcontra
          exact absurd (List.elem_iff.mp hin) hcontra
        have hu' : (u.erase r.toolUseId).Nodup := List.Nodup.erase _ hu
        obtain ⟨hsub, hmem, hnd, hiff⟩ := ih (u.erase r.toolUseId) hu'
        have hmemu : r.toolUseId ∈ u := List.elem_iff.mp hin
        rw [hred]
        refine ⟨hsub.cons₂ r, ?_, ?_, ?_⟩
        · intro r' hr'
          rcases List.mem_cons.mp hr' with h | h
          · subst h
            exact ⟨by simpa using hempty, hmemu⟩
          · obtain ⟨h1, h2⟩ := hmem r' h
            exact ⟨h1, List.mem_of_mem_erase h2⟩
        · simp only [List.map_cons, List.nodup_cons]
          refine ⟨?_, hnd⟩
          intro hcontra
          rcases List.mem_map.mp hcontra with ⟨r', hr', heq⟩
          have := (hmem r' hr').2
          rw [heq] at this
          exact absurd ((List.Nodup.mem_erase_iff hu).mp this).1 (by simp)
        · intro id
          rw [hiff id]
          constructor
          · intro ⟨h1, h2⟩
            have h1' := (List.Nodup.mem_erase_iff hu).mp h1
            refine ⟨h1'.2, ?_⟩
            simp only [List.map_cons, List.mem_cons]
            intro hcase
            rcases hcase with h | h
            · exact h1'.1 h
            · exact h2 h
          · intro ⟨h1, h2⟩
            simp only [List.map_cons, List.mem_cons] at h2
            push_neg at h2
            refine ⟨(List.Nodup.mem_erase_iff hu).mpr ⟨h2.1, h1⟩, h2.2⟩
      · have hred : filterResultsGo u (r :: rest) = filterResultsGo u rest := by
          have hnotmem : r.toolUseId ∉ u := by
            intro hmem
            exact hin (List.elem_iff.mpr hmem)
          simp [filterResultsGo, hempty, hnotmem]
        obtain ⟨hsub, hmem, hnd, hiff⟩ := ih u hu
        rw [hred]
        exact ⟨hsub.cons r, hmem, hnd, hiff⟩

lemma removeOrphanedToolUses_chars (history : List HistoryMessage)
    (orph : List (List Nat)) :
    ∀ msg ∈ removeOrphanedToolUses history orph, ∀ tu ∈ toolUsesOf msg,
      orph.contains tu.toolUseId = false ∧ ∃ msg0 ∈ history, tu ∈ toolUsesOf msg0 := by
  intro msg hmsg tu htu
  unfold removeOrphanedToolUses at hmsg
  cases horph : orph with
  | nil =>
    rw [horph] at hmsg
    exact ⟨rfl, msg, hmsg, htu⟩
  | cons o os =>
    rw [horph] at hmsg
    rcases List.mem_map.mp hmsg with ⟨msg0, hmem, heq⟩
    cases msg0 with
    | assistant c tus =>
      rw [← heq] at htu
      simp only [toolUsesOf] at htu
      rw [List.mem_filter] at htu
      refine ⟨by simpa [horph] using htu.2, HistoryMessage.assistant c tus, hmem, htu.1⟩
    | user c trs =>
      rw [← heq] at htu
      exact absurd htu (List.not_mem_nil tu)
    | other =>
      rw [← heq] at htu
      exact absurd htu (List.not_mem_nil tu)

/-- C8.  In the built upstream envelope, a tool_result of the current
request is retained only if its id is non-empty, matches a tool_use in the
assistant history, and that tool_use was not already answered by a history
tool_result; each tool_use is matched at most once (the retained ids are
duplicate-free); the retained list is a subsequence of the request order
(everything else is dropped); and every history tool_use left without a
matching result — from history or from the retained results — is stripped
from the assistant history (tools.go:964-973, 1211-1320). -/
theorem toolResultPairing (history : List HistoryMessage) (results : List ToolResult)
    (hne : results ≠ []) :
    (validateToolPairing history results).fst.Sublist results ∧
    (∀ r ∈ (validateToolPairing history results).fst,
      r.toolUseId ≠ [] ∧
      r.toolUseId ∈ collectToolUseIDs history ∧
      r.toolUseId ∉ collectHistoryResultIDs history) ∧
    ((validateToolPairing history results).fst.map (fun r => r.toolUseId)).Nodup ∧
    (∀ msg ∈ removeOrphanedToolUses history (validateToolPairing history results).snd,
      ∀ tu ∈ toolUsesOf msg, tu.toolUseId ≠ [] →
        (tu.toolUseId ∈ collectHistoryResultIDs history ∨
         tu.toolUseId ∈
           (validateToolPairing history results).fst.map (fun r => r.toolUseId))) := by
  obtain ⟨r0, rest0, rfl⟩ := List.exists_cons_of_ne_nil hne
  have hval : validateToolPairing history (r0 :: rest0) =
      filterResultsGo
        ((collectToolUseIDs history).filter
          (fun id => !(collectHistoryResultIDs history).contains id))
        (r0 :: rest0) := rfl
  have hu0nd : ((collectToolUseIDs history).filter
      (fun id => !(collectHistoryResultIDs history).contains id)).Nodup :=
    List.Nodup.filter _ (collectToolUseIDs_nodup history)
  obtain ⟨hsub, hmem, hnd, hiff⟩ := filterResultsGo_spec (r0 :: rest0) _ hu0nd
  have humem : ∀ id, id ∈ ((collectToolUseIDs history).filter
      (fun id => !(collectHistoryResultIDs history).contains id)) →
      id ∈ collectToolUseIDs history ∧ id ∉ collectHistoryResultIDs history := by
    intro id hid
    rw [List.mem_filter] at hid
    refine ⟨hid.1, ?_⟩
    intro hmem2
    have h2 := hid.2
    have h3 : (collectHistoryResultIDs history).contains id = true := List.elem_iff.mpr hmem2
    rw [h3] at h2
    simp at h2
  rw [hval]
  refine ⟨hsub, ?_, hnd, ?_⟩
  · intro r hr
    obtain ⟨h1, h2⟩ := hmem r hr
    obtain ⟨h3, h4⟩ := humem _ h2
    exact ⟨h1, h3, h4⟩
  · intro msg hmsg tu htu htune
    obtain ⟨hcont, msg0, hmsg0, htu0⟩ :=
      removeOrphanedToolUses_chars history _ msg hmsg tu htu
    have hnotorph : tu.toolUseId ∉
        (filterResultsGo
          ((collectToolUseIDs history).filter
            (fun id => !(collectHistoryResultIDs history).contains id)) (r0 :: rest0)).snd := by
      intro habs
      have h3 : (filterResultsGo
          ((collectToolUseIDs history).filter
            (fun id => !(collectHistoryResultIDs history).contains id))
          (r0 :: rest0)).snd.contains tu.toolUseId = true := List.elem_iff.mpr habs
      rw [h3] at hcont
      exact Bool.true_eq_false.mp hcont
    have hnot := fun hc => hnotorph ((hiff tu.toolUseId).mpr hc)
    by_cases hf : tu.toolUseId ∈
        (filterResultsGo
          ((collectToolUseIDs history).filter
            (fun id => !(collectHistoryResultIDs history).contains id))
          (r0 :: rest0)).fst.map (fun r => r.toolUseId)
    · exact Or.inr hf
    · left
      have hu0not : tu.toolUseId ∉ ((collectToolUseIDs history).filter
          (fun id => !(collectHistoryResultIDs history).contains id)) :=
        fun hin => hnot ⟨hin, hf⟩
      have hall : tu.toolUseId ∈ collectToolUseIDs history := by
        cases msg0 with
        | assistant c tus => exact mem_collectToolUseIDs history c tus tu hmsg0 htu0 htune
        | user c trs => exact absurd htu0 (List.not_mem_nil tu)
        | other => exact absurd htu0 (List.not_mem_nil tu)
      by_contra hhist
      apply hu0not
      rw [List.mem_filter]
      refine ⟨hall, ?_⟩
      cases hc : (collectHistoryResultIDs history).contains tu.toolUseId
      · simp
      · exact absurd (List.elem_iff.mp hc) hhist

/-- C8 witness: history with an answered tool_use "t1" and an unanswered
"t2"; current results answer "t1" (already answered — dropped), "t2"
(kept) and "orphan" (no matching use — dropped); afterwards no unanswered
tool_use remains in the stripped history. -/
theorem toolResultPairing_witness :
    ((validateToolPairing
        [HistoryMessage.assistant [] [⟨utf8Bytes "t1", []⟩],
         HistoryMessage.user [] [⟨utf8Bytes "t1", []⟩],
         HistoryMessage.assistant [] [⟨utf8Bytes "t2", []⟩]]
        [⟨utf8Bytes "t1", []⟩, ⟨utf8Bytes "t2", []⟩, ⟨utf8Bytes "orphan", []⟩]).fst.Sublist
      [⟨utf8Bytes "t1", []⟩, ⟨utf8Bytes "t2", []⟩, ⟨utf8Bytes "orphan", []⟩]) ∧
    (((validateToolPairing
        [HistoryMessage.assistant [] [⟨utf8Bytes "t1", []⟩],
         HistoryMessage.user [] [⟨utf8Bytes "t1", []⟩],
         HistoryMessage.assistant [] [⟨utf8Bytes "t2", []⟩]]
        [⟨utf8Bytes "t1", []⟩, ⟨utf8Bytes "t2", []⟩,
         ⟨utf8Bytes "orphan", []⟩]).fst.map (fun r => r.toolUseId)).Nodup) := by
  obtain ⟨h1, _, h3, _⟩ := toolResultPairing
    [HistoryMessage.assistant [] [⟨utf8Bytes "t1", []⟩],
     HistoryMessage.user [] [⟨utf8Bytes "t1", []⟩],
     HistoryMessage.assistant [] [⟨utf8Bytes "t2", []⟩]]
    [⟨utf8Bytes "t1", []⟩, ⟨utf8Bytes "t2", []⟩, ⟨utf8Bytes "orphan", []⟩] (by decide)
  exact ⟨h1, h3⟩

/-! ## C4: stream content-length exceptions -/

lemma lookupBlock_mem {bs : List (Int × BlockState)} {i : Int} {b : BlockState}
    (h : lookupBlock bs i = some b) : (i, b) ∈ bs := by
  induction bs with
  | nil => simp [lookupBlock] at h
  | cons p rest ih =>
    obtain ⟨j, c⟩ := p
    by_cases hj : (j == i) = true
    · rw [lookupBlock, if_pos hj] at h
      have hji : j = i := by simpa using hj
      have hcb : c = b := by simpa using h
      subst hji
      subst hcb
      exact List.mem_cons_self _ _
    · rw [lookupBlock, if_neg hj] at h
      exact List.mem_cons_of_mem _ (ih h)

lemma mem_lookupBlock_of_nodup {bs : List (Int × BlockState)} {i : Int} {b : BlockState}
    (hnd : keysNodup bs) (h : (i, b) ∈ bs) : lookupBlock bs i = some b := by
  induction bs with
  | nil => simp at h
  | cons p rest ih =>
    obtain ⟨j, c⟩ := p
    unfold keysNodup at hnd
    simp only [List.map_cons, List.nodup_cons] at hnd
    rcases List.mem_cons.mp h with hhd | htl
    · obtain ⟨h1, h2⟩ := Prod.mk.injEq .. ▸ (by exact hhd : (i, b) = (j, c))
      rw [lookupBlock, if_pos (by simpa using h1.symm)]
      rw [h2]
    · have hji : (j == i) = false := by
        have : i ∈ rest.map Prod.fst := List.mem_map.mpr ⟨(i, b), htl, rfl⟩
        by_contra hc
        have hji : j = i := by simpa using hc
        subst hji
        exact hnd.1 this
      rw [lookupBlock, if_neg (by simp [hji])]
      exact ih hnd.2 htl

lemma setBlock_key_cases {bs : List (Int × BlockState)} {i : Int} {b : BlockState} :
    ∀ q ∈ setBlock bs i b, q.fst ∈ bs.map Prod.fst ∨ q.fst = i := by
  induction bs with
  | nil =>
    intro q hq
    simp [setBlock] at hq
    right
    rw [hq]
  | cons p rest ih =>
    obtain ⟨j, c⟩ := p
    intro q hq
    by_cases hj : (j == i) = true
    · rw [setBlock, if_pos hj] at hq
      rcases List.mem_cons.mp hq with h | h
      · left; rw [h]; exact List.mem_cons_self _ _
      · left; exact List.mem_cons_of_mem _ (List.mem_map.mpr ⟨q, h, rfl⟩)
    · rw [setBlock, if_neg hj] at hq
      rcases List.mem_cons.mp hq with h | h
      · left; rw [h]; exact List.mem_cons_self _ _
      · rcases ih q h with h' | h'
        · left; exact List.mem_cons_of_mem _ h'
        · right; exact h'

lemma keysNodup_setBlock {bs : List (Int × BlockState)} {i : Int} {b : BlockState}
    (hnd : keysNodup bs) : keysNodup (setBlock bs i b) := by
  induction bs with
  | nil => simp [setBlock, keysNodup]
  | cons p rest ih =>
    obtain ⟨j, c⟩ := p
    unfold keysNodup at hnd ⊢
    simp only [List.map_cons, List.nodup_cons] at hnd
    by_cases hj : (j == i) = true
    · rw [setBlock, if_pos hj]
      simp only [List.map_cons, List.nodup_cons]
      have hji : j = i := by simpa using hj
      exact ⟨hji ▸ hnd.1, hnd.2⟩
    · rw [setBlock, if_neg hj]
      simp only [List.map_cons, List.nodup_cons]
      refine ⟨?_, ih hnd.2⟩
      intro hc
      rcases List.mem_map.mp hc with ⟨⟨k, d⟩, hmem, hkj⟩
      simp only at hkj
      subst hkj
      rcases setBlock_key_cases (k, d) hmem with h' | h'
      · exact hnd.1 h'
      · simp only at h'
        subst h'
        simp at hj

lemma sendEventSSE_stopEvt (s : SSEStateManager) (j : Int) :
    sendEventSSE s (mkStopEvt j) = handleContentBlockStop s (mkStopEvt j) := rfl

lemma sendEventSSE_maxTokensEvt (s : SSEStateManager) (inTok outTok : Int) :
    sendEventSSE s (maxTokensEvt inTok outTok) = handleMessageDelta s (maxTokensEvt inTok outTok) :=
  rfl

lemma sendEventSSE_msgStopEvt (s : SSEStateManager) :
    sendEventSSE s msgStopEvt = handleMessageStop s msgStopEvt := rfl

lemma handleContentBlockStop_open {s : SSEStateManager} {j : Int} {b : BlockState}
    (hb : lookupBlock s.activeBlocks j = some b) (hst : b.started = true)
    (hsp : b.stopped = false) :
    handleContentBlockStop s (mkStopEvt j) =
      ⟨{ s with activeBlocks := setBlock s.activeBlocks j { b with stopped := true } },
       [mkStopEvt j], false⟩ := by
  unfold handleContentBlockStop
  simp [mkStopEvt, hb, hst, hsp]

lemma sendStopsLoop_spec : ∀ (js : List Int) (s : SSEStateManager),
    (∀ j ∈ js, openAt s j = true) → js.Nodup →
    (sendStopsLoop s js).snd = js.map mkStopEvt ∧
    (∀ i, openAt (sendStopsLoop s js).fst i = (openAt s i && !(js.contains i))) ∧
    (sendStopsLoop s js).fst.messageStarted = s.messageStarted ∧
    (sendStopsLoop s js).fst.messageDeltaSent = s.messageDeltaSent ∧
    (sendStopsLoop s js).fst.messageEnded = s.messageEnded ∧
    (sendStopsLoop s js).fst.strictMode = s.strictMode ∧
    (keysNodup s.activeBlocks → keysNodup (sendStopsLoop s js).fst.activeBlocks) := by
  intro js
  induction js with
  | nil =>
    intro s _ _
    refine ⟨rfl, ?_, rfl, rfl, rfl, rfl, fun h => h⟩
    intro i
    simp [sendStopsLoop]
  | cons j js' ih =>
    intro s hopen hnd
    have hj : openAt s j = true := hopen j (List.mem_cons_self _ _)
    obtain ⟨b, hb, hbo⟩ : ∃ b, lookupBlock s.activeBlocks j = some b ∧
        (b.started && !b.stopped) = true := by
      unfold openAt at hj
      cases hlb : lookupBlock s.activeBlocks j with
      | none => rw [hlb] at hj; exact absurd hj (by simp)
      | some b => rw [hlb] at hj; exact ⟨b, rfl, hj⟩
    have hst : b.started = true := by
      rcases Bool.and_eq_true_iff.mp hbo with ⟨h1, _⟩; exact h1
    have hsp : b.stopped = false := by
      rcases Bool.and_eq_true_iff.mp hbo with ⟨_, h2⟩; simpa using h2
    have hstep : sendEventSSE s (mkStopEvt j) =
        ⟨{ s with activeBlocks := setBlock s.activeBlocks j { b with stopped := true } },
         [mkStopEvt j], false⟩ := by
      rw [sendEventSSE_stopEvt]; exact handleContentBlockStop_open hb hst hsp
    have hopen1 : ∀ i, openAt
        { s with activeBlocks := setBlock s.activeBlocks j { b with stopped := true } } i =
        (if i = j then false else openAt s i) := by
      intro i
      by_cases hij : i = j
      · subst hij
        unfold openAt
        simp only [lookupBlock_setBlock_self]
        simp [if_pos rfl]
      · unfold openAt
        simp only [lookupBlock_setBlock_ne _ _ _ _ hij]
        rw [if_neg hij]
    have hnd' : js'.Nodup := (List.nodup_cons.mp hnd).2
    have hjnot : j ∉ js' := (List.nodup_cons.mp hnd).1
    have hopen' : ∀ j' ∈ js',
        openAt { s with activeBlocks := setBlock s.activeBlocks j { b with stopped := true } }
          j' = true := by
      intro j' hj'
      have hne : ¬ j' = j := fun h => hjnot (h ▸ hj')
      rw [hopen1 j', if_neg hne]
      exact hopen j' (List.mem_cons_of_mem _ hj')
    obtain ⟨ihsnd, ihopen, ihms, ihmd, ihme, ihsm, ihknd⟩ := ih _ hopen' hnd'
    have hrw : sendStopsLoop s (j :: js') =
        ((sendStopsLoop
            { s with activeBlocks := setBlock s.activeBlocks j { b with stopped := true } }
            js').fst,
         [mkStopEvt j] ++ (sendStopsLoop
            { s with activeBlocks := setBlock s.activeBlocks j { b with stopped := true } }
            js').snd) := by
      rw [sendStopsLoop, hstep]
    refine ⟨?_, ?_, ?_, ?_, ?_, ?_, ?_⟩
    · rw [hrw]
      simp only [ihsnd, List.map_cons]
      rfl
    · intro i
      rw [hrw]
      simp only
      rw [ihopen i, hopen1 i]
      by_cases hij : i = j
      · subst hij
        rw [if_pos rfl]
        simp [List.contains_cons]
      · rw [if_neg hij]
        have hji : ¬ j = i := fun h => hij h.symm
        have hbe : (j == i) = false := by simp [hji]
        simp [List.contains_cons, hbe, hij]
    · rw [hrw]; exact ihms
    · rw [hrw]; exact ihmd
    · rw [hrw]; exact ihme
    · rw [hrw]; exact ihsm
    · intro h
      rw [hrw]
      exact ihknd (keysNodup_setBlock h)

lemma getOpenIdxs_open {s : SSEStateManager} (hnd : keysNodup s.activeBlocks) :
    ∀ j ∈ getOpenIdxs s, openAt s j = true := by
  intro j hj
  rcases List.mem_map.mp hj with ⟨⟨j', b⟩, hmem, hfst⟩
  simp only at hfst
  subst hfst
  have hfil := List.mem_filter.mp hmem
  have hlb := mem_lookupBlock_of_nodup hnd hfil.1
  unfold openAt
  rw [hlb]
  simpa using hfil.2

lemma getOpenIdxs_nodup {s : SSEStateManager} (hnd : keysNodup s.activeBlocks) :
    (getOpenIdxs s).Nodup := by
  have hsub : List.Sublist
      ((s.activeBlocks.filter (fun p => p.snd.started && !p.snd.stopped)).map Prod.fst)
      (s.activeBlocks.map Prod.fst) :=
    (List.filter_sublist _).map Prod.fst
  exact List.Nodup.sublist hsub hnd

lemma open_mem_getOpenIdxs {s : SSEStateManager} {i : Int} (h : openAt s i = true) :
    i ∈ getOpenIdxs s := by
  unfold openAt at h
  cases hlb : lookupBlock s.activeBlocks i with
  | none => rw [hlb] at h; exact absurd h (by simp)
  | some b =>
    rw [hlb] at h
    have hmem := lookupBlock_mem hlb
    exact List.mem_map.mpr ⟨(i, b), List.mem_filter.mpr ⟨hmem, by simpa using h⟩, rfl⟩

lemma closeAllOpenBlocks_closed {bs : List (Int × BlockState)} :
    ∀ p ∈ closeAllOpenBlocks bs, (p.snd.started && !p.snd.stopped) = false := by
  intro p hp
  rcases List.mem_map.mp hp with ⟨q, _, hpq⟩
  by_cases hq : (q.snd.started && !q.snd.stopped) = true
  · rw [if_pos hq] at hpq
    rw [← hpq]
    simp
  · rw [if_neg hq] at hpq
    rw [← hpq]
    simpa using hq

lemma handleMessageDelta_noopen {s : SSEStateManager} {e : EventData}
    (hstrict : s.strictMode = false) (hmd : s.messageDeltaSent = false)
    (hclosed : ∀ p ∈ s.activeBlocks, (p.snd.started && !p.snd.stopped) = false) :
    handleMessageDelta s e =
      ⟨{ s with activeBlocks := closeAllOpenBlocks s.activeBlocks, messageDeltaSent := true },
       [e], false⟩ := by
  have hfil : s.activeBlocks.filter (fun p => p.snd.started && !p.snd.stopped) = [] := by
    rw [List.filter_eq_nil_iff]
    intro p hp
    simp [hclosed p hp]
  unfold handleMessageDelta
  rw [hstrict, hmd]
  simp [hfil]

lemma handleMessageStop_first {s : SSEStateManager} {e : EventData}
    (hstrict : s.strictMode = false) (hme : s.messageEnded = false) :
    handleMessageStop s e = ⟨{ s with messageEnded := true }, [e], false⟩ := by
  unfold handleMessageStop
  rw [hstrict, hme]
  simp

lemma lookupBlock_closeAll_not_open {bs : List (Int × BlockState)} {i : Int} {b : BlockState}
    (h : lookupBlock (closeAllOpenBlocks bs) i = some b) : (b.started && !b.stopped) = false :=
  closeAllOpenBlocks_closed (i, b) (lookupBlock_mem h)

/-- C4: an upstream exception frame whose exception type equals
`ContentLengthExceededException` or contains `CONTENT_LENGTH_EXCEEDS` is
swallowed by the stream exception mapper: every open content block is
closed with a `content_block_stop`, one `message_delta` with
`stop_reason = max_tokens` carrying usage is emitted, then a
`message_stop`; no `error` event is produced, and afterwards no block is
open and the message is marked delta-sent and ended.  Hypotheses:
deployed non-strict mode, the message delta not yet sent, the message
not yet ended, and duplicate-free block keys (the list models a Go map). -/
theorem contentLengthExceptionSwallowed (s : SSEStateManager) (excType : List Nat)
    (inTok outTok : Int)
    (hcan : contentLengthCanHandle excType = true)
    (hstrict : s.strictMode = false)
    (hmd : s.messageDeltaSent = false)
    (hme : s.messageEnded = false)
    (hnd : keysNodup s.activeBlocks) :
    (handleStreamException s excType inTok outTok).handled = true ∧
    (handleStreamException s excType inTok outTok).out =
      (getOpenIdxs s).map mkStopEvt ++ [maxTokensEvt inTok outTok, msgStopEvt] ∧
    (∀ ev ∈ (handleStreamException s excType inTok outTok).out, ev.type ≠ "error") ∧
    (∀ i, openAt (handleStreamException s excType inTok outTok).st i = false) ∧
    (handleStreamException s excType inTok outTok).st.messageDeltaSent = true ∧
    (handleStreamException s excType inTok outTok).st.messageEnded = true := by
  have hne : excType ≠ [] := by
    intro h
    rw [h] at hcan
    exact absurd hcan (by decide)
  have hbeq : (excType == ([] : List Nat)) = false := by simp [hne]
  have h0 : handleStreamException s excType inTok outTok = contentLengthHandle s inTok outTok := by
    unfold handleStreamException
    simp only [hbeq, hcan]
    simp
  obtain ⟨hsnd, hopen', hms1, hmd1, hme1, hsm1, hknd1⟩ :=
    sendStopsLoop_spec (getOpenIdxs s) s (getOpenIdxs_open hnd) (getOpenIdxs_nodup hnd)
  have hall1 : ∀ i, openAt (sendStopsLoop s (getOpenIdxs s)).1 i = false := by
    intro i
    rw [hopen' i]
    by_cases h : openAt s i = true
    · have hc : (getOpenIdxs s).contains i = true := List.elem_iff.mpr (open_mem_getOpenIdxs h)
      rw [h, hc]
      rfl
    · have h' : openAt s i = false := by
        cases hx : openAt s i
        · rfl
        · exact absurd hx h
      rw [h']
      rfl
  have hknds1 : keysNodup (sendStopsLoop s (getOpenIdxs s)).1.activeBlocks := hknd1 hnd
  have hclosed1 : ∀ p ∈ (sendStopsLoop s (getOpenIdxs s)).1.activeBlocks,
      (p.snd.started && !p.snd.stopped) = false := by
    intro p hp
    obtain ⟨i, b⟩ := p
    have hlb := mem_lookupBlock_of_nodup hknds1 hp
    have h := hall1 i
    unfold openAt at h
    rw [hlb] at h
    exact h
  have hstrict1 : (sendStopsLoop s (getOpenIdxs s)).1.strictMode = false := by
    rw [hsm1]; exact hstrict
  have hmds1 : (sendStopsLoop s (getOpenIdxs s)).1.messageDeltaSent = false := by
    rw [hmd1]; exact hmd
  have hmes1 : (sendStopsLoop s (getOpenIdxs s)).1.messageEnded = false := by
    rw [hme1]; exact hme
  have h2 : sendEventSSE (sendStopsLoop s (getOpenIdxs s)).1 (maxTokensEvt inTok outTok) =
      ⟨{ (sendStopsLoop s (getOpenIdxs s)).1 with
           activeBlocks := closeAllOpenBlocks (sendStopsLoop s (getOpenIdxs s)).1.activeBlocks,
           messageDeltaSent := true },
       [maxTokensEvt inTok outTok], false⟩ := by
    rw [sendEventSSE_maxTokensEvt]
    exact handleMessageDelta_noopen hstrict1 hmds1 hclosed1
  have h3 : sendEventSSE
      { (sendStopsLoop s (getOpenIdxs s)).1 with
          activeBlocks := closeAllOpenBlocks (sendStopsLoop s (getOpenIdxs s)).1.activeBlocks,
          messageDeltaSent := true } msgStopEvt =
      ⟨{ (sendStopsLoop s (getOpenIdxs s)).1 with
           activeBlocks := closeAllOpenBlocks (sendStopsLoop s (getOpenIdxs s)).1.activeBlocks,
           messageDeltaSent := true, messageEnded := true },
       [msgStopEvt], false⟩ := by
    rw [sendEventSSE_msgStopEvt]
    exact handleMessageStop_first hstrict1 hmes1
  have hfin : handleStreamException s excType inTok outTok =
      ⟨{ (sendStopsLoop s (getOpenIdxs s)).1 with
           activeBlocks := closeAllOpenBlocks (sendStopsLoop s (getOpenIdxs s)).1.activeBlocks,
           messageDeltaSent := true, messageEnded := true },
       (getOpenIdxs s).map mkStopEvt ++ [maxTokensEvt inTok outTok] ++ [msgStopEvt], true⟩ := by
    rw [h0]
    unfold contentLengthHandle
    simp only [h2, h3, hsnd]
    simp
  have hact : (handleStreamException s excType inTok outTok).st.activeBlocks =
      closeAllOpenBlocks (sendStopsLoop s (getOpenIdxs s)).1.activeBlocks := by
    rw [hfin]
  refine ⟨by rw [hfin], ?_, ?_, ?_, by rw [hfin], by rw [hfin]⟩
  · rw [hfin]
    simp
  · intro ev hev
    rw [hfin] at hev
    simp only [List.mem_append, List.mem_singleton, List.mem_cons] at hev
    rcases hev with (hmap | hd) | hst
    · rcases List.mem_map.mp hmap with ⟨j, _, hj⟩
      rw [← hj]
      simp [mkStopEvt]
    · rcases hd with hd | hd
      · rw [hd]; simp [maxTokensEvt]
      · exact absurd hd (by simp)
    · rcases hst with hst | hst
      · rw [hst]; simp [msgStopEvt]
      · exact absurd hst (by simp)
  · intro i
    unfold openAt
    rw [hact]
    cases hlb : lookupBlock
        (closeAllOpenBlocks (sendStopsLoop s (getOpenIdxs s)).1.activeBlocks) i with
    | none => rfl
    | some b => exact lookupBlock_closeAll_not_open hlb

/-- Witness for C4 at a concrete state with one open text block. -/
theorem contentLengthExceptionSwallowed_witness :
    (handleStreamException
        { messageStarted := true,
          activeBlocks := [((0 : Int), ⟨0, "text", true, false, ""⟩)] }
        (utf8Bytes "ContentLengthExceededException") 3 7).handled = true ∧
    (handleStreamException
        { messageStarted := true,
          activeBlocks := [((0 : Int), ⟨0, "text", true, false, ""⟩)] }
        (utf8Bytes "ContentLengthExceededException") 3 7).out =
      (getOpenIdxs
        { messageStarted := true,
          activeBlocks := [((0 : Int), ⟨0, "text", true, false, ""⟩)] }).map mkStopEvt ++
      [maxTokensEvt 3 7, msgStopEvt] ∧
    (handleStreamException
        { messageStarted := true,
          activeBlocks := [((0 : Int), ⟨0, "text", true, false, ""⟩)] }
        (utf8Bytes "ContentLengthExceededException") 3 7).st.messageEnded = true := by
  have h := contentLengthExceptionSwallowed
    { messageStarted := true, activeBlocks := [((0 : Int), ⟨0, "text", true, false, ""⟩)] }
    (utf8Bytes "ContentLengthExceededException") 3 7 (by decide) rfl rfl rfl
    (by unfold keysNodup; decide)
  exact ⟨h.1, h.2.1, h.2.2.2.2.2⟩

/-! ## C1: the produced stream is well-formed -/

lemma scanCheck_append (c : SSECheck) (xs ys : List EventData) :
    scanCheck c (xs ++ ys) =
      match scanCheck c xs with
      | some c' => scanCheck c' ys
      | none => none := by
  induction xs generalizing c with
  | nil => simp [scanCheck]
  | cons x xs ih =>
    rw [List.cons_append, scanCheck, scanCheck]
    cases stepCheck c x with
    | none => rfl
    | some c' => exact ih c'

lemma stepCheck_stopEvt (c : SSECheck) (j : Int) :
    stepCheck c (mkStopEvt j) =
      some { c with openIdx := c.openIdx.filter (fun i => i != j) } := rfl

lemma stepCheck_thinkingDelta (c : SSECheck) (j : Int) (content : List Nat) :
    stepCheck c (mkThinkingDeltaEvt j content) = some c := rfl

lemma stepCheck_textDelta (c : SSECheck) (j : Int) (content : List Nat) :
    stepCheck c (mkTextDeltaEvt j content) = some c := rfl

lemma scanCheck_stops : ∀ (js : List Int) (c : SSECheck),
    ∃ c', scanCheck c (js.map mkStopEvt) = some c' ∧
      c'.deltaCount = c.deltaCount ∧
      (∀ i, i ∈ c'.openIdx ↔ (i ∈ c.openIdx ∧ i ∉ js)) := by
  intro js
  induction js with
  | nil =>
    intro c
    exact ⟨c, rfl, rfl, fun i => by simp⟩
  | cons j rest ih =>
    intro c
    obtain ⟨c', hscan, hdc, hmem⟩ := ih { c with openIdx := c.openIdx.filter (fun i => i != j) }
    refine ⟨c', ?_, hdc, ?_⟩
    · rw [List.map_cons, scanCheck, stepCheck_stopEvt]
      exact hscan
    · intro i
      rw [hmem i]
      simp only [List.mem_filter, List.mem_cons]
      constructor
      · rintro ⟨⟨h1, h2⟩, h3⟩
        refine ⟨h1, ?_⟩
        intro hc
        rcases hc with hc | hc
        · rw [hc] at h2; simp at h2
        · exact h3 hc
      · rintro ⟨h1, h2⟩
        refine ⟨⟨h1, ?_⟩, fun hc => h2 (Or.inr hc)⟩
        have : ¬ i = j := fun h => h2 (Or.inl h)
        simp [this]

lemma bool_of_not_true {b : Bool} (h : ¬ b = true) : b = false := by
  cases hb : b
  · rfl
  · exact absurd hb h

lemma stepCheck_other {c : SSECheck} {e : EventData}
    (h1 : (e.type == "content_block_start") = false)
    (h2 : (e.type == "content_block_stop") = false)
    (h3 : (e.type == "message_delta") = false) :
    stepCheck c e = some c := by
  unfold stepCheck
  rw [h1, h2, h3]
  simp

lemma scanCheck_one {c c' : SSECheck} {e : EventData} (h : stepCheck c e = some c') :
    scanCheck c [e] = some c' := by
  rw [scanCheck, h]
  rfl

lemma handleContentBlockStart_fields (s : SSEStateManager) (e : EventData) :
    (handleContentBlockStart s e).st.strictMode = s.strictMode ∧
    (handleContentBlockStart s e).st.messageDeltaSent = s.messageDeltaSent := by
  unfold handleContentBlockStart
  simp only []
  repeat' split
  all_goals exact ⟨rfl, rfl⟩

lemma preserve_messageStart {s : SSEStateManager} {c : SSECheck} {e : EventData}
    (ht : e.type = "message_start") (hinv : InvC1 s c) :
    ∃ c', scanCheck c (handleMessageStart s e).out = some c' ∧
      InvC1 (handleMessageStart s e).st c' ∧ (handleMessageStart s e).err = false := by
  obtain ⟨hsm, hdc, hop⟩ := hinv
  have hstep : stepCheck c e = some c :=
    stepCheck_other (by rw [ht]; rfl) (by rw [ht]; rfl) (by rw [ht]; rfl)
  unfold handleMessageStart
  by_cases hms : s.messageStarted = true
  · rw [if_pos hms, hsm]
    exact ⟨c, rfl, ⟨hsm, hdc, hop⟩, rfl⟩
  · rw [if_neg hms]
    exact ⟨c, scanCheck_one hstep, ⟨hsm, hdc, hop⟩, rfl⟩

lemma preserve_start {s : SSEStateManager} {c : SSECheck} {e : EventData}
    (ht : e.type = "content_block_start") (hinv : InvC1 s c) :
    ∃ c', scanCheck c (handleContentBlockStart s e).out = some c' ∧
      InvC1 (handleContentBlockStart s e).st c' ∧
      (handleContentBlockStart s e).err = false := by
  obtain ⟨hsm, hdc, hop⟩ := hinv
  by_cases hme : s.messageEnded = true
  · have hres : handleContentBlockStart s e = ⟨s, [], false⟩ := by
      unfold handleContentBlockStart
      rw [hsm, hme]
      simp
    rw [hres]
    exact ⟨c, rfl, ⟨hsm, hdc, hop⟩, rfl⟩
  · have hme' : s.messageEnded = false := bool_of_not_true hme
    by_cases hdup : openAt s (resolveStartIndex s e) = true
    · have hres : handleContentBlockStart s e = ⟨s, [], false⟩ := by
        have h1 : (!s.messageStarted && s.strictMode) = false := by simp [hsm]
        have hdup' : (match lookupBlock s.activeBlocks (resolveStartIndex s e) with
            | some b => b.started && !b.stopped
            | none => false) = true := hdup
        unfold handleContentBlockStart
        simp only [h1, hme', Bool.false_eq_true, if_false, hdup']
        simp
      rw [hres]
      exact ⟨c, rfl, ⟨hsm, hdc, hop⟩, rfl⟩
    · have hdupf : openAt s (resolveStartIndex s e) = false := bool_of_not_true hdup
      obtain ⟨herr, hout, hblocks, _⟩ := handleContentBlockStart_fresh s e hsm hme' hdupf
      obtain ⟨hfsm, hfmd⟩ := handleContentBlockStart_fields s e
      -- the emitted stop list is a map of stop events over the closed text indices
      by_cases htool : (e.cbType.getD "text" == "tool_use") = true
      case pos =>
        rw [if_pos htool] at hout hblocks
        obtain ⟨c1, hscan1, hdc1, hmem1⟩ := scanCheck_stops
          (((s.activeBlocks.filter
              (fun p => p.snd.btype == "text" && p.snd.started && !p.snd.stopped)).map
            Prod.fst)) c
        have hsnd : (closeOpenTextBlocks s.activeBlocks).snd =
            ((s.activeBlocks.filter
                (fun p => p.snd.btype == "text" && p.snd.started && !p.snd.stopped)).map
              Prod.fst).map mkStopEvt := by
          rw [closeOpenTextBlocks_snd, List.map_map]
          rfl
        have hopenNew : ∀ i,
            ((i ∈ c.openIdx ∧ i ∉ ((s.activeBlocks.filter
                (fun p => p.snd.btype == "text" && p.snd.started && !p.snd.stopped)).map
              Prod.fst)) ∨ i = resolveStartIndex s e) →
            openAt (handleContentBlockStart s e).st i = true := by
          intro i hi
          unfold openAt
          rw [hblocks]
          by_cases hieq : i = resolveStartIndex s e
          · rw [hieq, lookupBlock_setBlock_self]
            rfl
          · rw [lookupBlock_setBlock_ne _ _ _ _ hieq]
            rcases hi with ⟨hmemc, hnotjs⟩ | hieq'
            · have hoi : openAt s i = true := hop i hmemc
              unfold openAt at hoi
              cases hlb : lookupBlock s.activeBlocks i with
              | none => rw [hlb] at hoi; exact absurd hoi (by simp)
              | some b =>
                rw [hlb] at hoi
                rw [closeOpenTextBlocks_lookup, hlb]
                by_cases htb : (b.btype == "text" && b.started && !b.stopped) = true
                · exfalso
                  apply hnotjs
                  exact List.mem_map.mpr
                    ⟨(i, b), List.mem_filter.mpr ⟨lookupBlock_mem hlb, htb⟩, rfl⟩
                · have hp : ¬((b.btype = "text" ∧ b.started = true) ∧ b.stopped = false) := by
                    simpa using htb
                  simp only [Option.map] at *
                  simp at hoi
                  have hbt : ¬ b.btype = "text" := fun h => hp ⟨⟨h, hoi.1⟩, hoi.2⟩
                  simp [hbt, hoi]
            · exact absurd hieq' hieq
        rw [hout, scanCheck_append, hsnd, hscan1]
        cases hj : e.index with
        | some j =>
          have hre : resolveStartIndex s e = j := by
            unfold resolveStartIndex
            rw [hj]
          have hstep : stepCheck c1 e = some
              { c1 with openIdx := if c1.openIdx.contains j then c1.openIdx
                                   else j :: c1.openIdx } := by
            unfold stepCheck
            rw [ht, hj]
            simp
          refine ⟨_, scanCheck_one hstep, ⟨?_, ?_, ?_⟩, herr⟩
          · rw [hfsm]; exact hsm
          · rw [hfmd]
            exact hdc1.trans hdc
          · intro i hi
            simp only [] at hi
            have hi' : i = j ∨ i ∈ c1.openIdx := by
              by_cases hc : c1.openIdx.contains j = true
              · rw [if_pos hc] at hi
                exact Or.inr hi
              · rw [if_neg hc] at hi
                rcases List.mem_cons.mp hi with h | h
                · exact Or.inl h
                · exact Or.inr h
            rcases hi' with h | h
            · exact hopenNew i (Or.inr (h.trans hre.symm))
            · exact hopenNew i (Or.inl ((hmem1 i).mp h))
        | none =>
          have hstep : stepCheck c1 e = some c1 := by
            unfold stepCheck
            rw [ht, hj]
            simp
          refine ⟨c1, scanCheck_one hstep, ⟨?_, ?_, ?_⟩, herr⟩
          · rw [hfsm]; exact hsm
          · rw [hfmd, hdc1, hdc]
          · intro i hi
            exact hopenNew i (Or.inl ((hmem1 i).mp hi))
      case neg =>
        rw [if_neg htool] at hout hblocks
        have hopenNew : ∀ i, (i ∈ c.openIdx ∨ i = resolveStartIndex s e) →
            openAt (handleContentBlockStart s e).st i = true := by
          intro i hi
          unfold openAt
          rw [hblocks]
          by_cases hieq : i = resolveStartIndex s e
          · rw [hieq, lookupBlock_setBlock_self]
            rfl
          · rw [lookupBlock_setBlock_ne _ _ _ _ hieq]
            rcases hi with hmemc | hieq'
            · have hoi : openAt s i = true := hop i hmemc
              unfold openAt at hoi
              exact hoi
            · exact absurd hieq' hieq
        rw [hout]
        simp only [List.nil_append]
        cases hj : e.index with
        | some j =>
          have hre : resolveStartIndex s e = j := by
            unfold resolveStartIndex
            rw [hj]
          have hstep : stepCheck c e = some
              { c with openIdx := if c.openIdx.contains j then c.openIdx
                                  else j :: c.openIdx } := by
            unfold stepCheck
            rw [ht, hj]
            simp
          refine ⟨_, scanCheck_one hstep, ⟨?_, ?_, ?_⟩, herr⟩
          · rw [hfsm]; exact hsm
          · rw [hfmd]
            exact hdc
          · intro i hi
            simp only [] at hi
            have hi' : i = j ∨ i ∈ c.openIdx := by
              by_cases hc : c.openIdx.contains j = true
              · rw [if_pos hc] at hi
                exact Or.inr hi
              · rw [if_neg hc] at hi
                rcases List.mem_cons.mp hi with h | h
                · exact Or.inl h
                · exact Or.inr h
            rcases hi' with h | h
            · exact hopenNew i (Or.inr (h.trans hre.symm))
            · exact hopenNew i (Or.inl h)
        | none =>
          have hstep : stepCheck c e = some c := by
            unfold stepCheck
            rw [ht, hj]
            simp
          refine ⟨c, scanCheck_one hstep, ⟨?_, ?_, ?_⟩, herr⟩
          · rw [hfsm]; exact hsm
          · rw [hfmd, hdc]
          · intro i hi
            exact hopenNew i (Or.inl hi)

lemma preserve_stop {s : SSEStateManager} {c : SSECheck} {e : EventData}
    (ht : e.type = "content_block_stop") (hinv : InvC1 s c) :
    ∃ c', scanCheck c (handleContentBlockStop s e).out = some c' ∧
      InvC1 (handleContentBlockStop s e).st c' ∧
      (handleContentBlockStop s e).err = false := by
  obtain ⟨hsm, hdc, hop⟩ := hinv
  unfold handleContentBlockStop
  cases hj : e.index with
  | none =>
    rw [hsm]
    exact ⟨c, rfl, ⟨hsm, hdc, hop⟩, rfl⟩
  | some index =>
    simp only []
    cases hlb : lookupBlock s.activeBlocks index with
    | none =>
      rw [hsm]
      exact ⟨c, rfl, ⟨hsm, hdc, hop⟩, rfl⟩
    | some b =>
      simp only []
      by_cases hbs : b.started = true
      · by_cases hbt : b.stopped = true
        · rw [hbs, hbt, hsm]
          simp only [Bool.not_true, Bool.false_eq_true, if_false, if_true]
          exact ⟨c, rfl, ⟨hsm, hdc, hop⟩, trivial⟩
        · have hbt' : b.stopped = false := bool_of_not_true hbt
          rw [hbs, hbt']
          simp only [Bool.not_true, Bool.false_eq_true, if_false]
          have hstep : stepCheck c e =
              some { c with openIdx := c.openIdx.filter (fun i => i != index) } := by
            unfold stepCheck
            rw [ht, hj]
            simp
          refine ⟨_, scanCheck_one hstep, ⟨hsm, hdc, ?_⟩, trivial⟩
          intro i hi
          simp only [List.mem_filter] at hi
          obtain ⟨hmemc, hne⟩ := hi
          have hine : ¬ i = index := by simpa using hne
          unfold openAt
          simp only []
          rw [lookupBlock_setBlock_ne _ _ _ _ hine]
          exact hop i hmemc
      · have hbs' : b.started = false := bool_of_not_true hbs
        rw [hbs', hsm]
        simp only [Bool.not_false, if_true]
        exact ⟨c, rfl, ⟨hsm, hdc, hop⟩, trivial⟩

lemma preserve_messageDelta {s : SSEStateManager} {c : SSECheck} {e : EventData}
    (ht : e.type = "message_delta") (hinv : InvC1 s c) :
    ∃ c', scanCheck c (handleMessageDelta s e).out = some c' ∧
      InvC1 (handleMessageDelta s e).st c' ∧
      (handleMessageDelta s e).err = false := by
  obtain ⟨hsm, hdc, hop⟩ := hinv
  unfold handleMessageDelta
  rw [hsm]
  simp only [Bool.and_false, Bool.false_eq_true, if_false, Bool.not_false, if_true]
  by_cases hmd : s.messageDeltaSent = true
  · rw [if_pos hmd]
    exact ⟨c, rfl, ⟨hsm, hdc, hop⟩, rfl⟩
  · have hmd' : s.messageDeltaSent = false := bool_of_not_true hmd
    rw [if_neg hmd]
    obtain ⟨c1, hscan1, hdc1, hmem1⟩ := scanCheck_stops
      ((s.activeBlocks.filter (fun p => p.snd.started && !p.snd.stopped)).map Prod.fst) c
    have hstops : (s.activeBlocks.filter (fun p => p.snd.started && !p.snd.stopped)).map
        (fun p => mkStopEvt p.fst) =
        ((s.activeBlocks.filter (fun p => p.snd.started && !p.snd.stopped)).map
          Prod.fst).map mkStopEvt := by
      rw [List.map_map]
      rfl
    have hempty : c1.openIdx = [] := by
      rw [List.eq_nil_iff_forall_not_mem]
      intro i hi
      obtain ⟨hmemc, hnotjs⟩ := (hmem1 i).mp hi
      apply hnotjs
      have hoi : openAt s i = true := hop i hmemc
      unfold openAt at hoi
      cases hlb : lookupBlock s.activeBlocks i with
      | none => rw [hlb] at hoi; exact absurd hoi (by simp)
      | some b =>
        rw [hlb] at hoi
        exact List.mem_map.mpr
          ⟨(i, b), List.mem_filter.mpr ⟨lookupBlock_mem hlb, hoi⟩, rfl⟩
    have hdc0 : c1.deltaCount = 0 := by
      rw [hdc1, hdc, hmd']
      rfl
    have hstep : stepCheck c1 e = some { c1 with deltaCount := 1 } := by
      unfold stepCheck
      rw [ht]
      simp only [show (("message_delta" : String) == "content_block_start") = false from rfl,
        show (("message_delta" : String) == "content_block_stop") = false from rfl,
        show (("message_delta" : String) == "message_delta") = true from rfl,
        Bool.false_eq_true, if_false, if_true]
      rw [hdc0, hempty]
      simp
    simp only []
    rw [scanCheck_append, hstops, hscan1]
    refine ⟨_, scanCheck_one hstep, ⟨rfl, ?_, ?_⟩, trivial⟩
    · simp
    · intro i hi
      simp only [hempty] at hi
      exact absurd hi (List.not_mem_nil i)

lemma preserve_messageStop {s : SSEStateManager} {c : SSECheck} {e : EventData}
    (ht : e.type = "message_stop") (hinv : InvC1 s c) :
    ∃ c', scanCheck c (handleMessageStop s e).out = some c' ∧
      InvC1 (handleMessageStop s e).st c' ∧
      (handleMessageStop s e).err = false := by
  obtain ⟨hsm, hdc, hop⟩ := hinv
  have hstep : stepCheck c e = some c :=
    stepCheck_other (by rw [ht]; rfl) (by rw [ht]; rfl) (by rw [ht]; rfl)
  unfold handleMessageStop
  rw [hsm]
  simp only [Bool.and_false, Bool.false_eq_true, if_false]
  by_cases hme : s.messageEnded = true
  · rw [if_pos hme]
    exact ⟨c, rfl, ⟨hsm, hdc, hop⟩, rfl⟩
  · rw [if_neg hme]
    exact ⟨c, scanCheck_one hstep, ⟨rfl, hdc, hop⟩, rfl⟩

lemma scanCheck_append_some {c c1 : SSECheck} {xs : List EventData} (ys : List EventData)
    (h : scanCheck c xs = some c1) :
    scanCheck c (xs ++ ys) = scanCheck c1 ys := by
  rw [scanCheck_append, h]

lemma handleContentBlockStart_err_imp {s : SSEStateManager} {e : EventData}
    (h : (handleContentBlockStart s e).err = true) : s.strictMode = true := by
  unfold handleContentBlockStart at h
  simp only [] at h
  split at h
  · rename_i hg
    exact (Bool.and_eq_true_iff.mp hg).2
  · split at h
    · exact h
    · split at h
      · simp at h
      · simp at h

lemma handleContentBlockStop_err_imp {s : SSEStateManager} {e : EventData}
    (h : (handleContentBlockStop s e).err = true) : s.strictMode = true := by
  unfold handleContentBlockStop at h
  split at h
  · exact h
  · split at h
    · exact h
    · split at h
      · exact h
      · split at h
        · exact h
        · simp at h

lemma preserve_thinkStart {s : SSEStateManager} {c : SSECheck} {index : Int}
    (hinv : InvC1 s c) :
    ∃ c', scanCheck c (thinkStartPhase s index).out = some c' ∧
      InvC1 (thinkStartPhase s index).st c' ∧ (thinkStartPhase s index).err = false := by
  unfold thinkStartPhase
  simp only []
  split
  · split
    · exact preserve_start rfl hinv
    · exact ⟨c, rfl, hinv, rfl⟩
  · exact ⟨c, rfl, hinv, rfl⟩

lemma preserve_inThinking {s : SSEStateManager} {c : SSECheck} {index : Int}
    (hinv : InvC1 s c) :
    ∃ c', scanCheck c (inThinkingPhase s index).out = some c' ∧
      InvC1 (inThinkingPhase s index).st c' ∧ (inThinkingPhase s index).err = false := by
  obtain ⟨c1, hscan1, hinv1, herr1⟩ :=
    @preserve_stop s c (mkStopEvt s.thinkingBlockIndex) rfl hinv
  unfold inThinkingPhase
  cases hf : findSub s.thinkingBuffer thinkingEndBytes with
  | some endIdx =>
    simp only []
    have hscan0 : scanCheck c (if s.thinkingBuffer.take endIdx ≠ [] then
        [mkThinkingDeltaEvt s.thinkingBlockIndex (s.thinkingBuffer.take endIdx)]
        else []) = some c := by
      split
      · exact scanCheck_one (stepCheck_thinkingDelta c _ _)
      · rfl
    have hA : scanCheck c ((if s.thinkingBuffer.take endIdx ≠ [] then
        [mkThinkingDeltaEvt s.thinkingBlockIndex (s.thinkingBuffer.take endIdx)]
        else []) ++ (handleContentBlockStop s (mkStopEvt s.thinkingBlockIndex)).out) =
        some c1 := by
      rw [scanCheck_append_some _ hscan0]
      exact hscan1
    split
    · rename_i hE
      have h5 : s.strictMode = true := handleContentBlockStop_err_imp hE
      rw [hinv.1] at h5
      exact absurd h5 (by simp)
    · split
      · have hinv1x : InvC1
            { (handleContentBlockStop s (mkStopEvt s.thinkingBlockIndex)).st with
              inThinking := false, thinkingBuffer := [],
              textBlockIndexAfterThinking :=
                (handleContentBlockStop s (mkStopEvt s.thinkingBlockIndex)).st.nextBlockIndex }
            c1 := hinv1
        obtain ⟨c2, hscan2, hinv2, herr2⟩ := preserve_start
          (show (mkTextStartEvt
              (handleContentBlockStop s
                (mkStopEvt s.thinkingBlockIndex)).st.nextBlockIndex).type =
            "content_block_start" from rfl)
          hinv1x
        split
        · rename_i hE2
          have h5 := handleContentBlockStart_err_imp hE2
          have h6 : (handleContentBlockStop s (mkStopEvt s.thinkingBlockIndex)).st.strictMode
              = true := h5
          rw [hinv1.1] at h6
          exact absurd h6 (by simp)
        · have hB : scanCheck c (((if s.thinkingBuffer.take endIdx ≠ [] then
              [mkThinkingDeltaEvt s.thinkingBlockIndex (s.thinkingBuffer.take endIdx)]
              else []) ++ (handleContentBlockStop s (mkStopEvt s.thinkingBlockIndex)).out) ++
              (handleContentBlockStart
                { (handleContentBlockStop s (mkStopEvt s.thinkingBlockIndex)).st with
                  inThinking := false, thinkingBuffer := [],
                  textBlockIndexAfterThinking :=
                    (handleContentBlockStop s
                      (mkStopEvt s.thinkingBlockIndex)).st.nextBlockIndex }
                (mkTextStartEvt
                  (handleContentBlockStop s
                    (mkStopEvt s.thinkingBlockIndex)).st.nextBlockIndex)).out) = some c2 := by
            rw [scanCheck_append_some _ hA]
            exact hscan2
          refine ⟨c2, ?_, hinv2, rfl⟩
          rw [scanCheck_append_some _ hB]
          exact scanCheck_one (stepCheck_textDelta c2 _ _)
      · exact ⟨c1, hA, hinv1, rfl⟩
  | none =>
    simp only []
    split
    · split
      · exact ⟨c, rfl, hinv, rfl⟩
      · split
        · split
          · rename_i hE
            have h5 := handleContentBlockStart_err_imp hE
            have h6 : s.strictMode = true := h5
            rw [hinv.1] at h6
            exact absurd h6 (by simp)
          · have hinvx : InvC1
                { s with
                  thinkingBuffer :=
                    s.thinkingBuffer.drop
                      (findCharBoundary s.thinkingBuffer (s.thinkingBuffer.length - 10)),
                  thinkingBlockIndex := index, thinkingBlockStarted := true } c := hinv
            obtain ⟨c3, hscan3, hinv3, herr3⟩ := preserve_start
              (show (mkThinkingStartEvt index).type = "content_block_start" from rfl) hinvx
            refine ⟨c3, ?_, hinv3, rfl⟩
            rw [scanCheck_append_some _ hscan3]
            exact scanCheck_one (stepCheck_thinkingDelta c3 _ _)
        · exact ⟨c, scanCheck_one (stepCheck_thinkingDelta c _ _), hinv, rfl⟩
    · exact ⟨c, rfl, hinv, rfl⟩

lemma mkAutoStartEvt_type (j : Int) (bt : String) :
    (mkAutoStartEvt j bt).type = "content_block_start" := by
  unfold mkAutoStartEvt
  split
  · rfl
  · rfl

lemma preserve_postThinking {s : SSEStateManager} {c : SSECheck}
    (hinv : InvC1 s c) :
    ∃ c', scanCheck c (postThinkingPhase s).out = some c' ∧
      InvC1 (postThinkingPhase s).st c' ∧ (postThinkingPhase s).err = false := by
  unfold postThinkingPhase
  by_cases hstarted : s.textBlockStartedAfterThinking = true
  · simp only [hstarted, Bool.not_true, Bool.false_eq_true, if_false]
    split
    · exact ⟨c, scanCheck_one (stepCheck_textDelta c _ _), hinv, rfl⟩
    · exact ⟨c, rfl, hinv, rfl⟩
  · have hstarted' : s.textBlockStartedAfterThinking = false := bool_of_not_true hstarted
    simp only [hstarted', Bool.not_false, if_true]
    have hinvx : InvC1
        { s with textBlockStartedAfterThinking := false,
                 textBlockIndexAfterThinking := s.nextBlockIndex } c := hinv
    obtain ⟨c1, hscan1, hinv1, herr1⟩ := preserve_start
      (show (mkTextStartEvt s.nextBlockIndex).type = "content_block_start" from rfl) hinvx
    split
    · rename_i hE
      have h5 := handleContentBlockStart_err_imp hE
      have h6 : s.strictMode = true := h5
      rw [hinv.1] at h6
      exact absurd h6 (by simp)
    · simp only [Bool.false_eq_true, if_false]
      split
      · exact ⟨c1,
          (scanCheck_append_some _ hscan1).trans (scanCheck_one (stepCheck_textDelta c1 _ _)),
          hinv1, rfl⟩
      · exact ⟨c1, hscan1, hinv1, rfl⟩

lemma preserve_deltaGeneric {s : SSEStateManager} {c0 c : SSECheck} {e : EventData}
    {index : Int} {prev : List EventData}
    (ht : e.type = "content_block_delta")
    (hprev : scanCheck c0 prev = some c)
    (hinv : InvC1 s c) :
    ∃ c', scanCheck c0 (deltaGeneric s e index prev).out = some c' ∧
      InvC1 (deltaGeneric s e index prev).st c' ∧ (deltaGeneric s e index prev).err = false := by
  have hstepe : ∀ cx : SSECheck, stepCheck cx e = some cx := fun cx =>
    stepCheck_other (by rw [ht]; rfl) (by rw [ht]; rfl) (by rw [ht]; rfl)
  unfold deltaGeneric
  simp only []
  by_cases hjson : (e.deltaType.getD "" == "input_json_delta") = true
  · simp only [hjson, if_true]
    obtain ⟨c1, hscan1, hinv1, herr1⟩ := preserve_start
      (show (mkAutoStartEvt index "tool_use").type = "content_block_start" from
        mkAutoStartEvt_type _ _) hinv
    split
    · split
      · rename_i hE
        have h5 := handleContentBlockStart_err_imp hE
        rw [hinv.1] at h5
        exact absurd h5 (by simp)
      · split
        · split
          · exact ⟨c1, (scanCheck_append_some _ hprev).trans hscan1, hinv1, rfl⟩
          · exact ⟨c1,
              (scanCheck_append_some _ ((scanCheck_append_some _ hprev).trans hscan1)).trans
                (scanCheck_one (hstepe c1)),
              hinv1, rfl⟩
        · exact ⟨c1,
            (scanCheck_append_some _ ((scanCheck_append_some _ hprev).trans hscan1)).trans
              (scanCheck_one (hstepe c1)),
            hinv1, rfl⟩
    · split
      · split
        · exact ⟨c, hprev, hinv, rfl⟩
        · exact ⟨c, (scanCheck_append_some _ hprev).trans (scanCheck_one (hstepe c)),
            hinv, rfl⟩
      · exact ⟨c, (scanCheck_append_some _ hprev).trans (scanCheck_one (hstepe c)),
          hinv, rfl⟩
  · have hjson' := bool_of_not_true hjson
    simp only [hjson', Bool.false_eq_true, if_false]
    obtain ⟨c1, hscan1, hinv1, herr1⟩ := preserve_start
      (show (mkAutoStartEvt index "text").type = "content_block_start" from
        mkAutoStartEvt_type _ _) hinv
    split
    · split
      · rename_i hE
        have h5 := handleContentBlockStart_err_imp hE
        rw [hinv.1] at h5
        exact absurd h5 (by simp)
      · split
        · split
          · exact ⟨c1, (scanCheck_append_some _ hprev).trans hscan1, hinv1, rfl⟩
          · exact ⟨c1,
              (scanCheck_append_some _ ((scanCheck_append_some _ hprev).trans hscan1)).trans
                (scanCheck_one (hstepe c1)),
              hinv1, rfl⟩
        · exact ⟨c1,
            (scanCheck_append_some _ ((scanCheck_append_some _ hprev).trans hscan1)).trans
              (scanCheck_one (hstepe c1)),
            hinv1, rfl⟩
    · split
      · split
        · exact ⟨c, hprev, hinv, rfl⟩
        · exact ⟨c, (scanCheck_append_some _ hprev).trans (scanCheck_one (hstepe c)),
            hinv, rfl⟩
      · exact ⟨c, (scanCheck_append_some _ hprev).trans (scanCheck_one (hstepe c)),
          hinv, rfl⟩

lemma preserve_textPhase {s0 : SSEStateManager} {c : SSECheck} {index : Int}
    {deltaText : List Nat} (hinv : InvC1 s0 c) :
    (∀ r, textPhase s0 index deltaText = Sum.inl r →
      ∃ c', scanCheck c r.out = some c' ∧ InvC1 r.st c' ∧ r.err = false) ∧
    (∀ sp, textPhase s0 index deltaText = Sum.inr sp →
      ∃ c', scanCheck c sp.snd = some c' ∧ InvC1 sp.fst c') := by
  have hinvS : InvC1 { s0 with thinkingBuffer := s0.thinkingBuffer ++ deltaText } c := hinv
  obtain ⟨c1, hscan1, hinv1, herr1⟩ := @preserve_thinkStart
    { s0 with thinkingBuffer := s0.thinkingBuffer ++ deltaText } c index hinvS
  unfold textPhase
  simp only []
  split
  · rename_i hE
    rw [herr1] at hE
    exact absurd hE (by simp)
  · split
    · -- still inside thinking: the in-thinking phase runs
      obtain ⟨c2, hscan2, hinv2, herr2⟩ := preserve_inThinking hinv1
      refine ⟨?_, ?_⟩
      · intro r hr
        injection hr with h
        subst h
        exact ⟨c2, (scanCheck_append_some _ hscan1).trans hscan2, hinv2, herr2⟩
      · intro sp hsp
        simp at hsp
    · split
      · split
        · -- partial tag suffix: hold the buffer
          refine ⟨?_, ?_⟩
          · intro r hr
            injection hr with h
            subst h
            exact ⟨c1, hscan1, hinv1, rfl⟩
          · intro sp hsp
            simp at hsp
        · split
          · -- post-thinking redirection on the cleared buffer
            have hinv1x : InvC1
                { (thinkStartPhase
                    { s0 with thinkingBuffer := s0.thinkingBuffer ++ deltaText } index).st with
                  thinkingBuffer := ([] : List Nat) } c1 := hinv1
            obtain ⟨c3, hscan3, hinv3, herr3⟩ := preserve_postThinking hinv1x
            refine ⟨?_, ?_⟩
            · intro r hr
              injection hr with h
              subst h
              exact ⟨c3, (scanCheck_append_some _ hscan1).trans hscan3, hinv3, herr3⟩
            · intro sp hsp
              simp at hsp
          · -- fall through to the generic tail
            refine ⟨?_, ?_⟩
            · intro r hr
              simp at hr
            · intro sp hsp
              injection hsp with h
              subst h
              exact ⟨c1, hscan1, hinv1⟩
      · split
        · -- post-thinking redirection
          obtain ⟨c3, hscan3, hinv3, herr3⟩ := preserve_postThinking hinv1
          refine ⟨?_, ?_⟩
          · intro r hr
            injection hr with h
            subst h
            exact ⟨c3, (scanCheck_append_some _ hscan1).trans hscan3, hinv3, herr3⟩
          · intro sp hsp
            simp at hsp
        · refine ⟨?_, ?_⟩
          · intro r hr
            simp at hr
          · intro sp hsp
            injection hsp with h
            subst h
            exact ⟨c1, hscan1, hinv1⟩

lemma preserve_delta {s : SSEStateManager} {c : SSECheck} {e : EventData}
    (ht : e.type = "content_block_delta") (hinv : InvC1 s c) :
    ∃ c', scanCheck c (handleContentBlockDelta s e).out = some c' ∧
      InvC1 (handleContentBlockDelta s e).st c' ∧
      (handleContentBlockDelta s e).err = false := by
  unfold handleContentBlockDelta
  cases hj : e.index with
  | none => exact ⟨c, rfl, hinv, hinv.1⟩
  | some index =>
    simp only []
    split
    · obtain ⟨hl, hr⟩ := @preserve_textPhase s c index (e.deltaText.getD []) hinv
      cases htp : textPhase s index (e.deltaText.getD []) with
      | inl r =>
        obtain ⟨c1, hscan1, hinv1, herr1⟩ := hl r htp
        exact ⟨c1, hscan1, hinv1, herr1⟩
      | inr sp =>
        obtain ⟨c1, hscan1, hinv1⟩ := hr sp htp
        exact preserve_deltaGeneric ht hscan1 hinv1
    · exact preserve_deltaGeneric ht rfl hinv

lemma preserve_send {s : SSEStateManager} {c : SSECheck} (e : EventData)
    (hinv : InvC1 s c) :
    ∃ c', scanCheck c (sendEventSSE s e).out = some c' ∧
      InvC1 (sendEventSSE s e).st c' ∧ (sendEventSSE s e).err = false := by
  unfold sendEventSSE
  by_cases h1 : (e.type == "message_start") = true
  · rw [if_pos h1]
    exact preserve_messageStart (by simpa using h1) hinv
  · rw [if_neg h1]
    by_cases h2 : (e.type == "content_block_start") = true
    · rw [if_pos h2]
      exact preserve_start (by simpa using h2) hinv
    · rw [if_neg h2]
      by_cases h3 : (e.type == "content_block_delta") = true
      · rw [if_pos h3]
        exact preserve_delta (by simpa using h3) hinv
      · rw [if_neg h3]
        by_cases h4 : (e.type == "content_block_stop") = true
        · rw [if_pos h4]
          exact preserve_stop (by simpa using h4) hinv
        · rw [if_neg h4]
          by_cases h5 : (e.type == "message_delta") = true
          · rw [if_pos h5]
            exact preserve_messageDelta (by simpa using h5) hinv
          · rw [if_neg h5]
            by_cases h6 : (e.type == "message_stop") = true
            · rw [if_pos h6]
              exact preserve_messageStop (by simpa using h6) hinv
            · rw [if_neg h6]
              exact ⟨c, scanCheck_one (stepCheck_other (bool_of_not_true h2)
                (bool_of_not_true h4) (bool_of_not_true h5)), hinv, rfl⟩

lemma processEvents_wf : ∀ (es : List EventData) (s : SSEStateManager) (c : SSECheck),
    InvC1 s c →
    ∃ c', scanCheck c (processEvents s es).snd = some c' ∧
      InvC1 (processEvents s es).fst c' := by
  intro es
  induction es with
  | nil =>
    intro s c hinv
    exact ⟨c, rfl, hinv⟩
  | cons e es ih =>
    intro s c hinv
    obtain ⟨c1, hscan1, hinv1, _⟩ := preserve_send e hinv
    obtain ⟨c2, hscan2, hinv2⟩ := ih (sendEventSSE s e).st c1 hinv1
    exact ⟨c2, (scanCheck_append_some _ hscan1).trans hscan2, hinv2⟩

/-- C1: every SSE stream the deployed (non-strict) manager produces is
well-formed: the output contains at most one `message_delta`, and it is
emitted only after every started content block has been stopped — the
manager closes still-open blocks (emitting their `content_block_stop`)
before forwarding the delta, and drops any later `message_delta`. -/
theorem sseStreamWellFormed (es : List EventData) :
    sseWellFormed (runSSE es).snd = true := by
  obtain ⟨c', hscan, _⟩ := processEvents_wf es (newSSEStateManager false) ⟨0, []⟩
    ⟨rfl, rfl, by intro i hi; exact absurd hi (List.not_mem_nil i)⟩
  unfold sseWellFormed runSSE
  rw [hscan]
  rfl
